import Mathlib

/-!
# The mimo indexing protocol: block handling

A shallow embedding of `indexprotocol/mimo/protocol.go` (`HandleBlockData`,
`decodeString`) and `indexprotocol/util.go` (`ConvertTopicToAddress`,
`ReadContract`).

* bytes are `Fin 256`; a `hash.Hash256` is a list of exactly 32 bytes;
* a Go byte slice is its backing array from the slice's first element up to
  its capacity, together with its length: a slice expression `s[lo:hi]` on a
  slice checks `hi` against the capacity;
* a run of `HandleBlockData` ends by returning `nil`, by returning an error,
  or in a run-time panic (an index or a slice bound out of range, a nil
  dereference), which the function does not recover from;
* the API client and the SQL transaction are the two collaborators: each is a
  function answering a request given the requests made before it, and the
  outcome of a run records the requests made, in order.
-/

namespace Mimo

/-! ## Bytes, hashes, big integers -/

/-- One byte. -/
abbrev Byte := Fin 256

/-- The type `hash.Hash256`: an array of 32 bytes. -/
structure Hash256 where
  bytes : List Byte
  size_eq : bytes.length = 32
deriving DecidableEq

/-- The conversion `new(big.Int).SetBytes(b)`: the bytes read as a big-endian
unsigned integer. -/
def SetBytes (b : List Byte) : Nat :=
  b.foldl (fun acc x => acc * 256 + x.val) 0

/-- The method `(*big.Int).Uint64` on a non-negative value: the low 64 bits. -/
def Uint64 (x : Nat) : Nat := x % 2 ^ 64

/-- One decimal digit as a character. -/
def digitChar (d : Nat) : Char := Char.ofNat (48 + d % 10)

/-- The decimal digits of `n`, most significant first, in front of `acc`;
`fuel` bounds the number of digits produced. -/
def natDigits : Nat → Nat → List Char → List Char
  | 0, _, acc => acc
  | fuel + 1, n, acc =>
    if n < 10 then digitChar n :: acc
    else natDigits fuel (n / 10) (digitChar n :: acc)

/-- The decimal rendering of a natural number. -/
def natString (n : Nat) : String := String.mk (natDigits (n + 1) n [])

/-- The method `(*big.Int).String`: the decimal rendering, with a leading
minus sign for a negative value. -/
def bigIntString (x : Int) : String :=
  if x < 0 then "-" ++ natString x.natAbs else natString x.natAbs

/-- One hexadecimal digit, lower case. -/
def hexDigit (d : Nat) : Char :=
  if d < 10 then Char.ofNat (48 + d) else Char.ofNat (87 + d)

/-- The function `hex.EncodeToString`: two lower-case hexadecimal digits per
byte. -/
def hexEncodeToString (b : List Byte) : String :=
  String.mk (b.flatMap fun x => [hexDigit (x.val / 16), hexDigit (x.val % 16)])

/-! ## Errors and results -/

/-- The error values the two source files return. -/
inductive Error where
  /-- The value `errors.New("failed to service client from context")`. -/
  | noServiceClient
  /-- The error of `address.FromBytes` on a slice of `n` bytes, `n ≠ 20`. -/
  | invalidAddress (n : Nat)
  /-- An error returned by `cli.ReadContract`, handed on unchanged. -/
  | client (e : String)
  /-- The value `errors.Wrap(ErrUnimplemented, "failed to read contract")`. -/
  | readFailed
  /-- An error of `hex.DecodeString` (an invalid byte or an odd length). -/
  | hexDecode
  /-- An error returned by `tx.Exec`, handed on unchanged. -/
  | sql (e : String)
deriving DecidableEq, Repr

/-- What a call that may fail yields: a value, a returned error, or a
run-time panic. -/
inductive Res (α : Type) where
  | ok (a : α)
  | error (e : Error)
  | panic
deriving DecidableEq, Repr

/-! ## Byte slices and `decodeString` -/

/-- A Go byte slice: `arr` is the backing array from the slice's first element
up to its capacity, `len` the slice's length. -/
structure ByteSlice where
  arr : List Byte
  len : Nat
deriving DecidableEq, Repr

/-- The capacity `cap(s)`. -/
def ByteSlice.cap (s : ByteSlice) : Nat := s.arr.length

/-- The elements of the slice, `s[0] .. s[len(s)-1]`. -/
def ByteSlice.contents (s : ByteSlice) : List Byte := s.arr.take s.len

/-- The slice expression `s[lo:hi]`: it panics unless `lo ≤ hi ≤ cap(s)`. -/
def ByteSlice.slice (s : ByteSlice) (lo hi : Nat) : Option ByteSlice :=
  if lo ≤ hi ∧ hi ≤ s.cap then some ⟨s.arr.drop lo, hi - lo⟩ else none

/-- The function `decodeString`:
`string(output[64 : 64+new(big.Int).SetBytes(output[32:64]).Uint64()])`.
The sum is a `uint64` sum and wraps; a bound out of range is a panic
(`none`). -/
def decodeString (output : ByteSlice) : Option (List Byte) :=
  match output.slice 32 64 with
  | none => none
  | some w =>
    match output.slice 64 ((64 + Uint64 (SetBytes w.contents)) % 2 ^ 64) with
    | none => none
    | some r => some r.contents

/-! ## Addresses -/

/-- An `address.Address` value: 20 bytes. -/
structure Address where
  bytes : List Byte
  size_eq : bytes.length = 20
deriving DecidableEq

/-- Modelled from the spec: the constructor `address.FromBytes` of the address
library, which is not under `src/`. It builds the native address value from
the 20 bytes handed to it, and accepts a slice of exactly 20 bytes. -/
def FromBytes (b : List Byte) : Except Error Address :=
  if h : b.length = 20 then .ok ⟨b, h⟩ else .error (.invalidAddress b.length)

/-- The function `ConvertTopicToAddress`: `address.FromBytes(topic[12:])`. -/
def ConvertTopicToAddress (topic : Hash256) : Except Error Address :=
  FromBytes (topic.bytes.drop 12)

/-- What the code takes from outside the repository and the model leaves
open. -/
structure Runtime where
  /-- The method `String()` of an address (its rendering as text). -/
  addrString : Address → String
  /-- The bytes that lie behind the result of `hex.DecodeString(s)` in its
  backing array, up to its capacity. -/
  spare : String → List Byte

/-! ## `hex.DecodeString` and `ReadContract` -/

/-- The value of one hexadecimal digit, `none` for any other character. -/
def fromHexChar (c : Char) : Option Nat :=
  if 48 ≤ c.toNat ∧ c.toNat ≤ 57 then some (c.toNat - 48)
  else if 97 ≤ c.toNat ∧ c.toNat ≤ 102 then some (c.toNat - 87)
  else if 65 ≤ c.toNat ∧ c.toNat ≤ 70 then some (c.toNat - 55)
  else none

/-- The decoding loop of `hex.Decode`: one byte per pair of digits; `none`
on a character that is no digit and on an odd number of characters. -/
def hexDecode : List Char → Option (List Byte)
  | [] => some []
  | [_] => none
  | p :: q :: rest =>
    match fromHexChar p, fromHexChar q, hexDecode rest with
    | some a, some b, some bs => some (Fin.ofNat (a * 16 + b) :: bs)
    | _, _, _ => none

/-- The bytes `hex.Decode` has decoded when it stops: all of them, or those
before the first character that is no digit. -/
def hexDecodePrefix : List Char → List Byte
  | p :: q :: rest =>
    match fromHexChar p, fromHexChar q with
    | some a, some b => Fin.ofNat (a * 16 + b) :: hexDecodePrefix rest
    | _, _ => []
  | _ => []

/-- The function `hex.DecodeString`, with its two results: the decoded bytes
as a slice whose length is their number and no error, or the bytes decoded
before the error and the decoding error. -/
def hexDecodeString (rt : Runtime) (s : String) : ByteSlice × Option Error :=
  match hexDecode s.toList with
  | none =>
    (⟨hexDecodePrefix s.toList ++ rt.spare s, (hexDecodePrefix s.toList).length⟩,
      some .hexDecode)
  | some bs => (⟨bs ++ rt.spare s, bs.length⟩, none)

/-- A request `cli.ReadContract` receives: the contract and the call data of
the execution (nonce 1, amount 0, gas limit 3000000, gas price 1 and the zero
caller address are constants of `ReadContract`). -/
structure ReadRequest where
  contract : String
  callData : List Byte
deriving DecidableEq, Repr

/-- What `cli.ReadContract` returns: an error, or a response with its receipt
(`none` for a nil receipt, else the receipt's status) and its data. -/
inductive ClientResult where
  | error (e : String)
  | response (receipt : Option Nat) (data : String)
deriving DecidableEq, Repr

/-- An `iotexapi.APIServiceClient`: its answer to a request, given the
requests it has received before. -/
structure Client where
  ReadContract : List ReadRequest → ReadRequest → ClientResult

/-- The nil slice. -/
def ByteSlice.nil : ByteSlice := ⟨[], 0⟩

/-- What a call of `ReadContract` yields: its two results, the output bytes
and the error (`none` for a nil error), or a panic. -/
inductive ReadOut where
  | ret (output : ByteSlice) (err : Option Error)
  | panic
deriving DecidableEq, Repr

/-- The caller's check `if err != nil { return err }` on the results of
`ReadContract`: the output when the error is nil, else the error. -/
def ReadOut.checked : ReadOut → Res ByteSlice
  | .ret _ (some e) => .error e
  | .ret output none => .ok output
  | .panic => .panic

/-- The function `ReadContract` of `util.go`, called when the client has
received the requests `hist`. `action.NewExecution` returns no error; the
field `res.Receipt.Status` of a nil receipt is a nil dereference. -/
def ReadContract (rt : Runtime) (cli : Client) (hist : List ReadRequest) (addr : String)
    (callData : List Byte) : ReadOut :=
  match cli.ReadContract hist ⟨addr, callData⟩ with
  | .error e => .ret .nil (some (.client e))
  | .response none _ => .panic
  | .response (some status) data =>
    if status ≠ 1 then .ret .nil (some .readFailed)
    else .ret (hexDecodeString rt data).1 (hexDecodeString rt data).2

/-! ## Blocks, receipts, logs -/

/-- An `action.Log`. -/
structure Log where
  Address : String
  Topics : List Hash256
  Data : List Byte
  BlockHeight : Nat
  ActionHash : Hash256
  Index : Nat

/-- An `action.Receipt`; `logs` is what `Logs()` returns. -/
structure Receipt where
  Status : Nat
  BlockHeight : Nat
  ActionHash : Hash256
  ContractAddress : String
  logs : List Log

/-- The part of `block.Block` the handler reads. -/
structure Block where
  Receipts : List Receipt

/-- The type `indexprotocol.BlockData`; the handler reads its block only. -/
structure BlockData where
  Block : Block

/-- The type `Protocol`; `none` is a nil factory address. -/
structure Protocol where
  factoryAddr : Option Address

/-! ## SQL statements -/

/-- A value bound to a placeholder of a statement. -/
inductive Value where
  /-- A `hash.Hash256` passed as it is. -/
  | hash (h : Hash256)
  /-- A Go `int`. -/
  | int (i : Int)
  /-- A `uint64`. -/
  | uint64 (n : Nat)
  /-- A string of text. -/
  | str (s : String)
  /-- A string made of raw bytes, `string(b)`. -/
  | bytes (b : List Byte)
deriving DecidableEq

/-- A call `tx.Exec(query, args...)`. -/
structure Stmt where
  query : String
  args : List Value
deriving DecidableEq

/-- An `sql.Tx`: whether a statement fails, given the statements executed
before it in this call. -/
structure Tx where
  Exec : List Stmt → Stmt → Option Error

/-- The context: `services.ServiceClient(ctx)` finds a client or not. -/
structure Context where
  serviceClient : Option Client

def ExchangeCreationTableName : String := "mimo_exchange_creations"

def ExchangeProviderActionTableName : String := "mimo_exchange_provider_actions"

def insertExchangeQuery : String :=
  "INSERT INTO `" ++ ExchangeCreationTableName ++ "` (`exchange`,`token`,`block_height`,`action_hash`,`token_name`,`token_symbol`,`token_decimals`) VALUES %s"

def insertProviderActionsQuery : String :=
  "INSERT INTO `" ++ ExchangeProviderActionTableName ++ "` (`action_hash`,`idx`,`exchange`,`block_height`,`provider`,`iotx_amount`,`token_amount`) VALUES %s"

/-- The bytes of `hex.DecodeString("95d89b41")`. -/
def tokenSymbol : List Byte := [0x95, 0xd8, 0x9b, 0x41]

/-- The bytes of `hex.DecodeString("06fdde03")`. -/
def tokenName : List Byte := [0x06, 0xfd, 0xde, 0x03]

/-- The bytes of `hex.DecodeString("313ce567")`. -/
def tokenDecimals : List Byte := [0x31, 0x3c, 0xe5, 0x67]

/-- The first `case` of the switch on `topic[0]`. -/
def additionSig : String := "06239653922ac7bea6aa2b19dc486b9361821d37712eb796adfd38d81de278ca"

/-- The second `case` of the switch. -/
def removalSig : String := "0fbf06c058b90cb038a618f8c2acbf6145f8b3570fd1fa56abb8f0f3f05b36e8"

/-- The third `case` of the switch. -/
def creationSig : String := "9d42cb017eb05bd8944ab536a8b35bc68085931dd5f4356489801453923953f9"

/-- The placeholder group appended for each row. -/
def placeholders : String := "(?,?,?,?,?,?,?)"

/-- The call `fmt.Sprintf(format, arg)` for a format whose verbs are `%s`:
the first verb is replaced by the argument. -/
def sprintfChars : List Char → List Char → List Char
  | [], _ => []
  | [c], _ => [c]
  | c :: d :: rest, a =>
    if c = '%' ∧ d = 's' then a ++ rest else c :: sprintfChars (d :: rest) a

/-- The call `fmt.Sprintf(format, strings.Join(groups, ","))`. -/
def Sprintf (format : String) (groups : List String) : String :=
  String.mk (sprintfChars format.toList (",".intercalate groups).toList)

/-! ## `HandleBlockData` -/

/-- The local variables of `HandleBlockData` during the scan, and the
contract reads issued so far. -/
structure ScanState where
  valStrs : List String
  valArgs : List Value
  actionValStrs : List String
  actionValArgs : List Value
  reads : List ReadRequest
deriving DecidableEq

/-- The state at the start of the scan: four empty lists, no read issued. -/
def ScanState.init : ScanState := ⟨[], [], [], [], []⟩

/-- What the body of the inner loop does with one log: it goes on with a new
state, returns an error, or panics. The reads issued are kept in each case. -/
inductive Step where
  | next (s : ScanState)
  | fail (e : Error) (reads : List ReadRequest)
  | crash (reads : List ReadRequest)
deriving DecidableEq

/-- The first `case`: an Addition-kind log. -/
def handleAddition (rt : Runtime) (receipt : Receipt) (i : Nat) (l : Log) (s : ScanState) :
    Step :=
  match l.Topics[1]? with
  | none => .crash s.reads
  | some t1 =>
    match ConvertTopicToAddress t1 with
    | .error e => .fail e s.reads
    | .ok provider =>
      match l.Topics[2]? with
      | none => .crash s.reads
      | some t2 =>
        match l.Topics[3]? with
        | none => .crash s.reads
        | some t3 =>
          let iotxAmount : Int := SetBytes t2.bytes
          let tokenAmount : Int := SetBytes t3.bytes
          .next { s with
            actionValStrs := s.actionValStrs ++ [placeholders]
            actionValArgs := s.actionValArgs ++
              [ .hash receipt.ActionHash,
                .int i,
                .uint64 receipt.BlockHeight,
                .str receipt.ContractAddress,
                .str (rt.addrString provider),
                .str (bigIntString iotxAmount),
                .str (bigIntString tokenAmount) ] }

/-- The second `case`: a Removal-kind log. -/
def handleRemoval (rt : Runtime) (receipt : Receipt) (i : Nat) (l : Log) (s : ScanState) :
    Step :=
  match l.Topics[1]? with
  | none => .crash s.reads
  | some t1 =>
    match ConvertTopicToAddress t1 with
    | .error e => .fail e s.reads
    | .ok provider =>
      match l.Topics[2]? with
      | none => .crash s.reads
      | some t2 =>
        match l.Topics[3]? with
        | none => .crash s.reads
        | some t3 =>
          let iotxAmount : Int := SetBytes t2.bytes
          let tokenAmount : Int := SetBytes t3.bytes
          .next { s with
            actionValStrs := s.actionValStrs ++ [placeholders]
            actionValArgs := s.actionValArgs ++
              [ .hash receipt.ActionHash,
                .int i,
                .uint64 receipt.BlockHeight,
                .str receipt.ContractAddress,
                .str (rt.addrString provider),
                .str (bigIntString (-iotxAmount)),
                .str (bigIntString (-tokenAmount)) ] }

/-- The third `case`: a Creation-kind log. The three reads are issued in the
order name, symbol, decimals; the second address is decoded after them, and
the two strings are decoded while the arguments are appended. -/
def handleCreation (rt : Runtime) (client : Client) (l : Log) (s : ScanState) : Step :=
  match l.Topics[1]? with
  | none => .crash s.reads
  | some t1 =>
    match ConvertTopicToAddress t1 with
    | .error e => .fail e s.reads
    | .ok token =>
      let r1 := s.reads ++ [⟨rt.addrString token, tokenName⟩]
      match (ReadContract rt client s.reads (rt.addrString token) tokenName).checked with
      | .panic => .crash r1
      | .error e => .fail e r1
      | .ok name =>
        let r2 := r1 ++ [⟨rt.addrString token, tokenSymbol⟩]
        match (ReadContract rt client r1 (rt.addrString token) tokenSymbol).checked with
        | .panic => .crash r2
        | .error e => .fail e r2
        | .ok symbol =>
          let r3 := r2 ++ [⟨rt.addrString token, tokenDecimals⟩]
          match (ReadContract rt client r2 (rt.addrString token) tokenDecimals).checked with
          | .panic => .crash r3
          | .error e => .fail e r3
          | .ok decimals =>
            match l.Topics[2]? with
            | none => .crash r3
            | some t2 =>
              match ConvertTopicToAddress t2 with
              | .error e => .fail e r3
              | .ok exchange =>
                match decodeString name with
                | none => .crash r3
                | some nameStr =>
                  match decodeString symbol with
                  | none => .crash r3
                  | some symbolStr =>
                    .next { s with
                      valStrs := s.valStrs ++ [placeholders]
                      valArgs := s.valArgs ++
                        [ .str (rt.addrString exchange),
                          .str (rt.addrString token),
                          .uint64 l.BlockHeight,
                          .str (hexEncodeToString l.ActionHash.bytes),
                          .bytes nameStr,
                          .bytes symbolStr,
                          .uint64 (Uint64 (SetBytes decimals.contents)) ]
                      reads := r3 }

/-- The body of the inner loop, for the log `l` at position `i` of
`receipt.Logs()`. -/
def handleLog (rt : Runtime) (factoryAddr : Address) (client : Client) (receipt : Receipt)
    (i : Nat) (l : Log) (s : ScanState) : Step :=
  if l.Address ≠ rt.addrString factoryAddr then .next s
  else
    match l.Topics with
    | [] => .next s
    | t0 :: _ =>
      if hexEncodeToString t0.bytes = additionSig then handleAddition rt receipt i l s
      else if hexEncodeToString t0.bytes = removalSig then handleRemoval rt receipt i l s
      else if hexEncodeToString t0.bytes = creationSig then handleCreation rt client l s
      else .next s

/-- The inner loop `for i, l := range receipt.Logs()`, from position `i` on. -/
def scanLogs (rt : Runtime) (factoryAddr : Address) (client : Client) (receipt : Receipt) :
    Nat → List Log → ScanState → Step
  | _, [], s => .next s
  | i, l :: ls, s =>
    match handleLog rt factoryAddr client receipt i l s with
    | .next s1 => scanLogs rt factoryAddr client receipt (i + 1) ls s1
    | .fail e r => .fail e r
    | .crash r => .crash r

/-- The outer loop `for _, receipt := range data.Block.Receipts`. -/
def scanReceipts (rt : Runtime) (factoryAddr : Address) (client : Client) :
    List Receipt → ScanState → Step
  | [], s => .next s
  | receipt :: rs, s =>
    if receipt.Status ≠ 1 then scanReceipts rt factoryAddr client rs s
    else
      match scanLogs rt factoryAddr client receipt 0 receipt.logs s with
      | .next s1 => scanReceipts rt factoryAddr client rs s1
      | .fail e r => .fail e r
      | .crash r => .crash r

/-- How a call of `HandleBlockData` ends. -/
inductive Result where
  | success
  | error (e : Error)
  | panic
deriving DecidableEq

/-- What a call of `HandleBlockData` does: how it ends, the contract reads it
issued and the statements it executed, each in order. -/
structure Outcome where
  result : Result
  reads : List ReadRequest
  execs : List Stmt
deriving DecidableEq

/-- The statement of the creation table for the pending rows. -/
def exchangeStmt (s : ScanState) : Stmt :=
  ⟨Sprintf insertExchangeQuery s.valStrs, s.valArgs⟩

/-- The statement of the action table for the pending rows. -/
def providerActionsStmt (s : ScanState) : Stmt :=
  ⟨Sprintf insertProviderActionsQuery s.actionValStrs, s.actionValArgs⟩

/-- The second `if` after the loops: the insert into the action table, when
the statements `done` were executed before it. -/
def flushActions (tx : Tx) (s : ScanState) (done : List Stmt) : Outcome :=
  if s.actionValStrs.length ≠ 0 then
    match tx.Exec done (providerActionsStmt s) with
    | some e => ⟨.error e, s.reads, done ++ [providerActionsStmt s]⟩
    | none => ⟨.success, s.reads, done ++ [providerActionsStmt s]⟩
  else ⟨.success, s.reads, done⟩

/-- The code after the loops: the insert into the creation table, then the
insert into the action table. -/
def flush (tx : Tx) (s : ScanState) : Outcome :=
  if s.valStrs.length ≠ 0 then
    match tx.Exec [] (exchangeStmt s) with
    | some e => ⟨.error e, s.reads, [exchangeStmt s]⟩
    | none => flushActions tx s [exchangeStmt s]
  else flushActions tx s []

/-- The method `HandleBlockData`. -/
def HandleBlockData (rt : Runtime) (p : Protocol) (ctx : Context) (tx : Tx)
    (data : BlockData) : Outcome :=
  match p.factoryAddr with
  | none => ⟨.success, [], []⟩
  | some factoryAddr =>
    match ctx.serviceClient with
    | none => ⟨.error .noServiceClient, [], []⟩
    | some client =>
      match scanReceipts rt factoryAddr client data.Block.Receipts ScanState.init with
      | .fail e reads => ⟨.error e, reads, []⟩
      | .crash reads => ⟨.panic, reads, []⟩
      | .next s => flush tx s

/-! ## Notions used in the statements -/

/-- The address made of the low-order 20 bytes of a topic word. -/
def topicAddress (t : Hash256) : Address :=
  ⟨t.bytes.drop 12, by simp [t.size_eq]⟩

/-- The hexadecimal text of `topic[0]` of a log, `none` for a log without
topics. -/
def sigOf (l : Log) : Option String :=
  l.Topics.head?.map fun t => hexEncodeToString t.bytes

/-- The log's `topic[0]` is none of the three signatures of the switch. -/
def Unmatched (l : Log) : Prop :=
  sigOf l ≠ some additionSig ∧ sigOf l ≠ some removalSig ∧ sigOf l ≠ some creationSig

instance (l : Log) : Decidable (Unmatched l) := by
  unfold Unmatched
  infer_instance

/-- The first error among the three enrichment reads (name, symbol, decimals)
on the contract `addr`, when the client has received `hist`; `none` when the
three reads return no error. -/
def enrichmentError (rt : Runtime) (client : Client) (hist : List ReadRequest)
    (addr : String) : Option Error :=
  match (ReadContract rt client hist addr tokenName).checked with
  | .error e => some e
  | .panic => none
  | .ok _ =>
    match (ReadContract rt client (hist ++ [⟨addr, tokenName⟩]) addr
        tokenSymbol).checked with
    | .error e => some e
    | .panic => none
    | .ok _ =>
      match (ReadContract rt client (hist ++ [⟨addr, tokenName⟩] ++ [⟨addr, tokenSymbol⟩])
          addr tokenDecimals).checked with
      | .error e => some e
      | _ => none

/-- Every pending placeholder group is `(?,?,?,?,?,?,?)` and each table has
seven pending arguments per pending group. -/
def RowsInv (s : ScanState) : Prop :=
  (∀ g ∈ s.valStrs, g = placeholders) ∧ s.valArgs.length = 7 * s.valStrs.length ∧
  (∀ g ∈ s.actionValStrs, g = placeholders) ∧
  s.actionValArgs.length = 7 * s.actionValStrs.length

/-- The text of the creation insert for `n` rows. -/
def exchangeInsertText (n : Nat) : String :=
  "INSERT INTO `mimo_exchange_creations` (`exchange`,`token`,`block_height`,`action_hash`,`token_name`,`token_symbol`,`token_decimals`) VALUES " ++
    ",".intercalate (List.replicate n "(?,?,?,?,?,?,?)")

/-- The text of the action insert for `n` rows. -/
def providerActionsInsertText (n : Nat) : String :=
  "INSERT INTO `mimo_exchange_provider_actions` (`action_hash`,`idx`,`exchange`,`block_height`,`provider`,`iotx_amount`,`token_amount`) VALUES " ++
    ",".intercalate (List.replicate n "(?,?,?,?,?,?,?)")

/-- The error is one that `ReadContract` returns: the client's error, the
error for a status other than 1, or the decoding error. -/
def IsReadError (e : Error) : Prop :=
  (∃ m, e = .client m) ∨ e = .readFailed ∨ e = .hexDecode

/-- The number a text of decimal digits stands for. -/
def decimalValue (cs : List Char) : Nat :=
  cs.foldl (fun acc c => acc * 10 + (c.toNat - 48)) 0

/-- The number of `?` placeholders in the text of a statement. -/
def placeholderCount (q : String) : Nat := q.toList.count '?'

/-- The composite keys of the rows in a pending argument list: the first two
values of each group of seven. -/
def rowKeys : List Value → List (Value × Value)
  | k1 :: k2 :: _ :: _ :: _ :: _ :: _ :: rest => (k1, k2) :: rowKeys rest
  | _ => []

/-- The client after it has received the requests `hist`. -/
def Client.after (c : Client) (hist : List ReadRequest) : Client :=
  ⟨fun h req => c.ReadContract (hist ++ h) req⟩

/-- The pending lists and reads of `s` followed by those of `d`. -/
def ScanState.append (s d : ScanState) : ScanState :=
  ⟨s.valStrs ++ d.valStrs, s.valArgs ++ d.valArgs, s.actionValStrs ++ d.actionValStrs,
    s.actionValArgs ++ d.actionValArgs, s.reads ++ d.reads⟩

/-- The step `st`, made after what `s` holds. -/
def Step.prepend (s : ScanState) : Step → Step
  | .next d => .next (s.append d)
  | .fail e r => .fail e (s.reads ++ r)
  | .crash r => .crash (s.reads ++ r)

/-! ## Concrete inputs -/

/-- A 32-byte word holding `n`, big-endian. -/
def word (n : Nat) : Hash256 :=
  ⟨(List.range 32).map fun i => Fin.ofNat (n / 256 ^ (31 - i)), by simp⟩

/-- The topic word of the Addition signature. -/
def additionTopic : Hash256 := word 0x06239653922ac7bea6aa2b19dc486b9361821d37712eb796adfd38d81de278ca

/-- The topic word of the Removal signature. -/
def removalTopic : Hash256 := word 0x0fbf06c058b90cb038a618f8c2acbf6145f8b3570fd1fa56abb8f0f3f05b36e8

/-- The topic word of the Creation signature. -/
def creationTopic : Hash256 := word 0x9d42cb017eb05bd8944ab536a8b35bc68085931dd5f4356489801453923953f9

/-- A runtime that renders an address as the hexadecimal text of its bytes
and leaves no spare capacity behind decoded bytes. -/
def rt0 : Runtime := ⟨fun a => hexEncodeToString a.bytes, fun _ => []⟩

/-- A factory address. -/
def factory0 : Address := ⟨List.replicate 20 7, by decide⟩

/-- A protocol watching `factory0`. -/
def p0 : Protocol := ⟨some factory0⟩

/-- A client whose every call fails. -/
def cliDown : Client := ⟨fun _ _ => .error "unavailable"⟩

/-- A transaction whose statements all succeed. -/
def txOk : Tx := ⟨fun _ _ => none⟩

/-- A log emitted by `factory0` with the given topics. -/
def factoryLog (topics : List Hash256) : Log :=
  ⟨rt0.addrString factory0, topics, [], 10, word 77, 0⟩

/-- A successful receipt with the given logs. -/
def okReceipt (ls : List Log) : Receipt := ⟨1, 10, word 77, "exchange-1", ls⟩

/-- The ABI encoding of the string "ABCDE", in hexadecimal: the offset word,
the length word 5, the five bytes and their padding. -/
def abcdeData : String :=
  "0000000000000000000000000000000000000000000000000000000000000020" ++
  "0000000000000000000000000000000000000000000000000000000000000005" ++
  "4142434445000000000000000000000000000000000000000000000000000000"

/-- A client that answers every read with status 1 and the encoding of
"ABCDE". -/
def cliToken : Client := ⟨fun _ _ => .response (some 1) abcdeData⟩

/-- A payload of 64 bytes, in hexadecimal, whose length word is 2^256 - 1. -/
def badLengthData : String :=
  "0000000000000000000000000000000000000000000000000000000000000020" ++
  "ffffffffffffffffffffffffffffffffffffffffffffffffffffffffffffffff"

/-- The 64 bytes `badLengthData` stands for. -/
def badLengthBytes : List Byte := (word 32).bytes ++ List.replicate 32 255

/-- A client that answers every read with status 1 and `badLengthData`. -/
def cliBadLength : Client := ⟨fun _ _ => .response (some 1) badLengthData⟩

/-- A Creation-kind log emitted by the factory address, as the runtime `rt`
renders it. -/
def creationLog (rt : Runtime) : Log :=
  ⟨rt.addrString factory0, [creationTopic, word 9, word 8], [], 10, word 77, 0⟩

/-- A transaction whose statements all fail. -/
def txFail : Tx := ⟨fun _ _ => some (.sql "duplicate key")⟩

/-- A block of one successful receipt with a Creation-kind log and then an
Addition-kind log of the factory address. -/
def mixedBlock : BlockData :=
  ⟨⟨[okReceipt [creationLog rt0, factoryLog [additionTopic, word 9, word 5, word 6]]]⟩⟩

/-- The state a scan ends in; the initial state for a scan that fails. -/
def finalState (st : Step) : ScanState :=
  match st with
  | .next s => s
  | _ => ScanState.init

/-- A client whose every call returns a receipt of status 0. -/
def cliReverted : Client := ⟨fun _ _ => .response (some 0) ""⟩

/-- The 96 bytes `abcdeData` stands for. -/
def abcdeBytes : List Byte :=
  (word 32).bytes ++ (word 5).bytes ++ [65, 66, 67, 68, 69] ++ List.replicate 27 0

/-- The 32-byte word 18, in hexadecimal. -/
def eighteenData : String :=
  "0000000000000000000000000000000000000000000000000000000000000012"

/-- A client that answers the decimals read with the word 18 and every other
read with the encoding of "ABCDE", each with status 1. -/
def cliToken18 : Client :=
  ⟨fun _ req =>
    if req.callData = tokenDecimals then .response (some 1) eighteenData
    else .response (some 1) abcdeData⟩

/-- A log with the given topics emitted by an address other than `factory0`. -/
def foreignLog (topics : List Hash256) : Log :=
  ⟨"another-contract", topics, [], 10, word 77, 0⟩

/-- A block of two successful receipts: one with a Creation-kind log, one
with an Addition-kind log. -/
def twoReceipts : List Receipt :=
  [okReceipt [creationLog rt0]] ++
    [okReceipt [factoryLog [additionTopic, word 9, word 5, word 6]]]

/-- A successful receipt with the action hash `h` and the given logs. -/
def okReceiptOf (h : Hash256) (ls : List Log) : Receipt := ⟨1, 10, h, "exchange-1", ls⟩

/-- Two successful receipts with the action hashes 77 and 78, each with one
Addition-kind log at index 0. -/
def twoAdditions : List Receipt :=
  [ okReceiptOf (word 77) [factoryLog [additionTopic, word 9, word 5, word 6]],
    okReceiptOf (word 78) [factoryLog [additionTopic, word 9, word 1, word 2]] ]

/-! ## Shared lemmas -/

theorem ConvertTopicToAddress_eq (t : Hash256) :
    ConvertTopicToAddress t = .ok (topicAddress t) := by
  simp [ConvertTopicToAddress, FromBytes, topicAddress, t.size_eq]

/-! ## Removal amounts negate Addition amounts -/

/-- C1: an Addition-kind log and a Removal-kind log with the same topic[1..3]
queue rows whose amounts are the decimal renderings of `a`, `b` and of `-a`,
`-b`, where `a` and `b` are the big-endian unsigned values of topic[2] and
topic[3]. -/
theorem C1_removal_negates_addition (rt : Runtime) (factoryAddr : Address) (client : Client)
    (ra rr : Receipt) (i j : Nat) (la lr : Log) (sa sr : ScanState)
    (t0a t0r t1 t2 t3 : Hash256) (resta restr : List Hash256)
    (hla : la.Address = rt.addrString factoryAddr)
    (hlr : lr.Address = rt.addrString factoryAddr)
    (hta : la.Topics = t0a :: t1 :: t2 :: t3 :: resta)
    (htr : lr.Topics = t0r :: t1 :: t2 :: t3 :: restr)
    (hsa : hexEncodeToString t0a.bytes = additionSig)
    (hsr : hexEncodeToString t0r.bytes = removalSig) :
    handleLog rt factoryAddr client ra i la sa =
      .next { sa with
        actionValStrs := sa.actionValStrs ++ [placeholders]
        actionValArgs := sa.actionValArgs ++
          [ .hash ra.ActionHash, .int i, .uint64 ra.BlockHeight, .str ra.ContractAddress,
            .str (rt.addrString (topicAddress t1)),
            .str (bigIntString (SetBytes t2.bytes : Nat)),
            .str (bigIntString (SetBytes t3.bytes : Nat)) ] } ∧
    handleLog rt factoryAddr client rr j lr sr =
      .next { sr with
        actionValStrs := sr.actionValStrs ++ [placeholders]
        actionValArgs := sr.actionValArgs ++
          [ .hash rr.ActionHash, .int j, .uint64 rr.BlockHeight, .str rr.ContractAddress,
            .str (rt.addrString (topicAddress t1)),
            .str (bigIntString (-(SetBytes t2.bytes : Nat))),
            .str (bigIntString (-(SetBytes t3.bytes : Nat))) ] } ∧
    ∀ n : Nat, bigIntString (n : Int) = natString n ∧
      bigIntString (-(n : Int)) = if n = 0 then natString 0 else "-" ++ natString n := by
  have hne : removalSig ≠ additionSig := by decide
  refine ⟨?_, ?_, ?_⟩
  · simp [handleLog, handleAddition, hla, hta, hsa, ConvertTopicToAddress_eq]
  · simp [handleLog, handleRemoval, hlr, htr, hsr, hne, ConvertTopicToAddress_eq]
  · intro n
    constructor
    · simp [bigIntString]
    · by_cases hn : n = 0
      · subst hn
        simp [bigIntString]
      · have hpos : (0 : Int) < n := by omega
        simp [bigIntString, hn, hpos]

/-- C1 at a concrete pair of logs: amounts 5 and 2^64+3 are queued as "5" and
"18446744073709551619" by the Addition log and as "-5" and
"-18446744073709551619" by the Removal log. -/
theorem C1_removal_negates_addition_witness :
    (hexEncodeToString additionTopic.bytes = additionSig ∧
      hexEncodeToString removalTopic.bytes = removalSig) ∧
    (bigIntString (SetBytes (word 5).bytes : Nat) = "5" ∧
      bigIntString (-(SetBytes (word (2 ^ 64 + 3)).bytes : Nat)) = "-18446744073709551619") ∧
    handleLog rt0 factory0 cliDown (okReceipt []) 1
      (factoryLog [removalTopic, word 9, word 5, word (2 ^ 64 + 3)]) ScanState.init =
      .next { ScanState.init with
        actionValStrs := ScanState.init.actionValStrs ++ [placeholders]
        actionValArgs := ScanState.init.actionValArgs ++
          [ .hash (okReceipt []).ActionHash, .int 1, .uint64 (okReceipt []).BlockHeight,
            .str (okReceipt []).ContractAddress,
            .str (rt0.addrString (topicAddress (word 9))),
            .str (bigIntString (-(SetBytes (word 5).bytes : Nat))),
            .str (bigIntString (-(SetBytes (word (2 ^ 64 + 3)).bytes : Nat))) ] } :=
  ⟨⟨by decide, by decide⟩, ⟨by decide, by decide⟩,
    (C1_removal_negates_addition rt0 factory0 cliDown (okReceipt []) (okReceipt []) 0 1
      (factoryLog [additionTopic, word 9, word 5, word (2 ^ 64 + 3)])
      (factoryLog [removalTopic, word 9, word 5, word (2 ^ 64 + 3)])
      ScanState.init ScanState.init additionTopic removalTopic (word 9) (word 5)
      (word (2 ^ 64 + 3)) [] [] rfl rfl rfl rfl (by decide) (by decide)).2.1⟩

/-! ## Logs that match no signature -/

theorem handleLog_unmatched (rt : Runtime) (factoryAddr : Address) (client : Client)
    (receipt : Receipt) (i : Nat) (l : Log) (s : ScanState) (h : Unmatched l) :
    handleLog rt factoryAddr client receipt i l s = .next s := by
  unfold handleLog
  split
  · rfl
  · cases ht : l.Topics with
    | nil => rfl
    | cons t0 rest =>
      obtain ⟨h1, h2, h3⟩ := h
      simp only [sigOf, ht, List.head?_cons, Option.map_some', ne_eq, Option.some.injEq] at h1 h2 h3
      simp [h1, h2, h3]

theorem scanLogs_unmatched (rt : Runtime) (factoryAddr : Address) (client : Client)
    (receipt : Receipt) (ls : List Log) (h : ∀ l ∈ ls, Unmatched l) (i : Nat) (s : ScanState) :
    scanLogs rt factoryAddr client receipt i ls s = .next s := by
  induction ls generalizing i with
  | nil => rfl
  | cons l ls ih =>
    have hl := handleLog_unmatched rt factoryAddr client receipt i l s
      (h l (List.mem_cons_self l ls))
    simp only [scanLogs, hl]
    exact ih (fun x hx => h x (List.mem_cons_of_mem l hx)) (i + 1)

theorem scanReceipts_unmatched (rt : Runtime) (factoryAddr : Address) (client : Client)
    (rs : List Receipt) (h : ∀ r ∈ rs, ∀ l ∈ r.logs, Unmatched l) (s : ScanState) :
    scanReceipts rt factoryAddr client rs s = .next s := by
  induction rs with
  | nil => rfl
  | cons r rs ih =>
    have ih1 := ih (fun x hx => h x (List.mem_cons_of_mem r hx))
    unfold scanReceipts
    split
    · exact ih1
    · rw [scanLogs_unmatched rt factoryAddr client r r.logs (h r (List.mem_cons_self r rs))]
      exact ih1

/-- C2, as stated, fails: a protocol with a factory address returns an error
on the empty block when the context carries no service client. -/
theorem C2_counterexample :
    (∀ r ∈ ([] : List Receipt), ∀ l ∈ r.logs, Unmatched l) ∧
    (HandleBlockData rt0 p0 ⟨none⟩ txOk ⟨⟨[]⟩⟩).result = .error .noServiceClient ∧
    (HandleBlockData rt0 p0 ⟨none⟩ txOk ⟨⟨[]⟩⟩).result ≠ .success := by
  refine ⟨by simp, rfl, by decide⟩

/-- C2, amended: when the protocol has no factory address or the context
carries a service client, a block in which no log matches a known signature
queues no row (the scan ends in its initial state), issues no read, executes
no statement and returns success. -/
theorem C2_unmatched_block_is_noop (rt : Runtime) (p : Protocol) (ctx : Context) (tx : Tx)
    (data : BlockData)
    (hctx : p.factoryAddr = none ∨ ctx.serviceClient.isSome)
    (h : ∀ r ∈ data.Block.Receipts, ∀ l ∈ r.logs, Unmatched l) :
    HandleBlockData rt p ctx tx data = ⟨.success, [], []⟩ ∧
    ∀ factoryAddr client,
      scanReceipts rt factoryAddr client data.Block.Receipts ScanState.init =
        .next ScanState.init := by
  refine ⟨?_, fun f c => scanReceipts_unmatched rt f c _ h _⟩
  unfold HandleBlockData
  cases hf : p.factoryAddr with
  | none => rfl
  | some f =>
    cases hc : ctx.serviceClient with
    | none => simp [hf, hc] at hctx
    | some c =>
      simp only [scanReceipts_unmatched rt f c _ h]
      rfl

/-- C2, amended, on a block of two successful receipts whose logs match no
signature, handled with a service client in the context. -/
theorem C2_unmatched_block_is_noop_witness :
    (p0.factoryAddr = none ∨ (Context.mk (some cliDown)).serviceClient.isSome) ∧
    (∀ r ∈ [okReceipt [factoryLog [word 1, word 2], factoryLog []], okReceipt []],
      ∀ l ∈ r.logs, Unmatched l) ∧
    HandleBlockData rt0 p0 ⟨some cliDown⟩ txOk
      ⟨⟨[okReceipt [factoryLog [word 1, word 2], factoryLog []], okReceipt []]⟩⟩ =
      ⟨.success, [], []⟩ :=
  ⟨Or.inr rfl, by decide,
    (C2_unmatched_block_is_noop rt0 p0 ⟨some cliDown⟩ txOk
      ⟨⟨[okReceipt [factoryLog [word 1, word 2], factoryLog []], okReceipt []]⟩⟩
      (Or.inr rfl) (by decide)).1⟩

/-! ## Topic lists shorter than the event's arity -/

/-- C3: on a log of the factory address with a recognized signature and too
few topics, the handler panics on the topic index and returns no error: an
Addition-kind log with one topic, a Removal-kind log with three topics, a
Creation-kind log with one topic. -/
theorem C3_short_topic_list_panics :
    HandleBlockData rt0 p0 ⟨some cliDown⟩ txOk ⟨⟨[okReceipt [factoryLog [additionTopic]]]⟩⟩ =
      ⟨.panic, [], []⟩ ∧
    HandleBlockData rt0 p0 ⟨some cliDown⟩ txOk
      ⟨⟨[okReceipt [factoryLog [removalTopic, word 9, word 5]]]⟩⟩ = ⟨.panic, [], []⟩ ∧
    HandleBlockData rt0 p0 ⟨some cliDown⟩ txOk ⟨⟨[okReceipt [factoryLog [creationTopic]]]⟩⟩ =
      ⟨.panic, [], []⟩ := by
  refine ⟨by decide, by decide, by decide⟩

/-! ## `decodeString` -/

theorem decodeString_of_arr (arr : List Byte) (len : Nat) (head lenWord s rest : List Byte)
    (hcap : arr.length < 2 ^ 63) (hhead : head.length = 32) (hlen : lenWord.length = 32)
    (hN : SetBytes lenWord = s.length) (harr : arr = head ++ lenWord ++ s ++ rest) :
    decodeString ⟨arr, len⟩ = some s := by
  have hl : arr.length = 64 + s.length + rest.length := by
    rw [harr]; simp [hhead, hlen]; omega
  have hd32 : arr.drop 32 = lenWord ++ s ++ rest := by
    rw [harr, List.append_assoc, List.append_assoc, List.drop_left' hhead, List.append_assoc]
  have hd64 : arr.drop 64 = s ++ rest := by
    have h64 : (head ++ lenWord).length = 64 := by simp [hhead, hlen]
    rw [harr, List.append_assoc, List.drop_left' h64]
  have hw : (arr.drop 32).take 32 = lenWord := by
    rw [hd32, List.append_assoc, List.take_left' hlen]
  have hs : (arr.drop 64).take s.length = s := by
    rw [hd64, List.take_left' rfl]
  have hmod : (64 + s.length % 2 ^ 64) % 2 ^ 64 = 64 + s.length := by omega
  have h1 : (32 : Nat) ≤ 64 ∧ 64 ≤ arr.length := by omega
  have h2 : 64 ≤ 64 + s.length ∧ 64 + s.length ≤ arr.length := by omega
  simp only [decodeString, ByteSlice.slice, ByteSlice.cap, ByteSlice.contents, Uint64, h1,
    and_self, if_true, hw, hN, hmod, h2, Nat.add_sub_cancel_left, hs]

/-- C4: on a payload made of a 32-byte head word, a 32-byte length word
whose big-endian value is the length of `s`, the bytes of `s` and any
padding, `decodeString` returns exactly `s`. -/
theorem C4_decodeString_returns_string (output : ByteSlice) (head lenWord s pad : List Byte)
    (hcap : output.cap < 2 ^ 63) (hhead : head.length = 32) (hlen : lenWord.length = 32)
    (hN : SetBytes lenWord = s.length)
    (hout : output.contents = head ++ lenWord ++ s ++ pad) :
    decodeString output = some s := by
  obtain ⟨arr, len⟩ := output
  have harr : arr = head ++ lenWord ++ s ++ (pad ++ arr.drop len) := by
    have h := (List.take_append_drop len arr).symm
    simp only [ByteSlice.contents] at hout
    rw [hout] at h
    simpa [List.append_assoc] using h
  exact decodeString_of_arr arr len head lenWord s (pad ++ arr.drop len) hcap hhead hlen hN harr

/-- C4 on the payload of the specification: an offset word, the length 5,
"ABCDE" and 27 bytes of padding decode to "ABCDE". -/
theorem C4_decodeString_returns_string_witness :
    decodeString ⟨(word 32).bytes ++ (word 5).bytes ++ [65, 66, 67, 68, 69] ++
      List.replicate 27 0, 96⟩ = some [65, 66, 67, 68, 69] :=
  C4_decodeString_returns_string _ (word 32).bytes (word 5).bytes [65, 66, 67, 68, 69]
    (List.replicate 27 0) (by decide) (by decide) (by decide) (by decide) (by decide)

theorem decodeString_wrapped_bound (arr : List Byte) (len : Nat) (head lenWord rest : List Byte)
    (hhead : head.length = 32) (hlen : lenWord.length = 32)
    (hN : SetBytes lenWord % 2 ^ 64 = 2 ^ 64 - 1) (harr : arr = head ++ lenWord ++ rest) :
    decodeString ⟨arr, len⟩ = none := by
  have hl : arr.length = 64 + rest.length := by
    rw [harr]; simp [hhead, hlen]; omega
  have hd32 : arr.drop 32 = lenWord ++ rest := by
    rw [harr, List.append_assoc, List.drop_left' hhead]
  have hw : (arr.drop 32).take 32 = lenWord := by
    rw [hd32, List.take_left' hlen]
  have h1 : (32 : Nat) ≤ 64 ∧ 64 ≤ arr.length := by omega
  have hmod : (64 + (2 ^ 64 - 1)) % 2 ^ 64 = 63 := by norm_num
  simp only [decodeString, ByteSlice.slice, ByteSlice.cap, ByteSlice.contents, Uint64, h1,
    and_self, if_true, hw, hN, hmod]
  simp

/-- C5: a Creation-kind log whose name read returns 64 bytes with the length
word 2^256 - 1 makes `HandleBlockData` panic after the three reads, whatever
the spare capacity of the decoded payload is: no error is returned. And on a
length word 2^64 + 1 followed by two bytes, `decodeString` returns a string of
one byte. -/
theorem C5_bad_length_panics :
    (∀ rt : Runtime,
      HandleBlockData rt p0 ⟨some cliBadLength⟩ txOk ⟨⟨[okReceipt [creationLog rt]]⟩⟩ =
        ⟨.panic,
          [ ⟨rt.addrString (topicAddress (word 9)), tokenName⟩,
            ⟨rt.addrString (topicAddress (word 9)), tokenSymbol⟩,
            ⟨rt.addrString (topicAddress (word 9)), tokenDecimals⟩ ], []⟩) ∧
    decodeString ⟨(word 32).bytes ++ (word (2 ^ 64 + 1)).bytes ++ [65, 66], 66⟩ =
      some [65] := by
  refine ⟨?_, by decide⟩
  intro rt
  have hdec : hexDecode badLengthData.data = some badLengthBytes := by decide
  have hlen : badLengthBytes.length = 64 := by decide
  have hrc : ∀ hist addr cd, (ReadContract rt cliBadLength hist addr cd).checked =
      .ok ⟨badLengthBytes ++ rt.spare badLengthData, 64⟩ := by
    intro hist addr cd
    simp [ReadContract, ReadOut.checked, cliBadLength, hexDecodeString, hdec, hlen]
  have hds : decodeString ⟨badLengthBytes ++ rt.spare badLengthData, 64⟩ = none :=
    decodeString_wrapped_bound _ 64 (word 32).bytes (List.replicate 32 255) _
      (by decide) (by decide) (by decide) rfl
  have hsig : hexEncodeToString creationTopic.bytes = creationSig := by decide
  have hne1 : creationSig ≠ additionSig := by decide
  have hne2 : creationSig ≠ removalSig := by decide
  simp [HandleBlockData, p0, scanReceipts, okReceipt, scanLogs, handleLog, creationLog, hsig,
    hne1, hne2, handleCreation, ConvertTopicToAddress_eq, hrc, hds, ScanState.init]

/-! ## The scan over concatenated lists -/

theorem scanLogs_append (rt : Runtime) (factoryAddr : Address) (client : Client)
    (receipt : Receipt) (l1 l2 : List Log) (i : Nat) (s : ScanState) :
    scanLogs rt factoryAddr client receipt i (l1 ++ l2) s =
      match scanLogs rt factoryAddr client receipt i l1 s with
      | .next s1 => scanLogs rt factoryAddr client receipt (i + l1.length) l2 s1
      | .fail e r => .fail e r
      | .crash r => .crash r := by
  induction l1 generalizing i s with
  | nil => simp [scanLogs]
  | cons l l1 ih =>
    simp only [List.cons_append, scanLogs, List.length_cons]
    cases handleLog rt factoryAddr client receipt i l s with
    | next s1 =>
      have hi : i + (l1.length + 1) = i + 1 + l1.length := by omega
      simp only [hi]
      exact ih (i + 1) s1
    | fail e r => rfl
    | crash r => rfl

theorem scanReceipts_append (rt : Runtime) (factoryAddr : Address) (client : Client)
    (r1 r2 : List Receipt) (s : ScanState) :
    scanReceipts rt factoryAddr client (r1 ++ r2) s =
      match scanReceipts rt factoryAddr client r1 s with
      | .next s1 => scanReceipts rt factoryAddr client r2 s1
      | .fail e r => .fail e r
      | .crash r => .crash r := by
  induction r1 generalizing s with
  | nil => simp [scanReceipts]
  | cons r r1 ih =>
    simp only [List.cons_append, scanReceipts]
    split
    · exact ih s
    · cases scanLogs rt factoryAddr client r 0 r.logs s with
      | next s1 => exact ih s1
      | fail e r => rfl
      | crash r => rfl

/-! ## A failed enrichment read -/

theorem handleCreation_fail (rt : Runtime) (client : Client) (l : Log) (s : ScanState)
    (t0 t1 : Hash256) (rest : List Hash256) (e : Error)
    (htop : l.Topics = t0 :: t1 :: rest)
    (hfail : enrichmentError rt client s.reads (rt.addrString (topicAddress t1)) = some e) :
    ∃ reads, handleCreation rt client l s = .fail e reads := by
  unfold enrichmentError at hfail
  simp only [handleCreation, htop, List.getElem?_cons_succ, List.getElem?_cons_zero,
    ConvertTopicToAddress_eq]
  cases h1 : (ReadContract rt client s.reads (rt.addrString (topicAddress t1))
      tokenName).checked with
  | error e1 =>
    rw [h1] at hfail
    simp only [Option.some.injEq] at hfail
    exact ⟨_, by rw [hfail]⟩
  | panic => rw [h1] at hfail; simp at hfail
  | ok name =>
    rw [h1] at hfail
    simp only at hfail ⊢
    cases h2 : (ReadContract rt client
        (s.reads ++ [⟨rt.addrString (topicAddress t1), tokenName⟩])
        (rt.addrString (topicAddress t1)) tokenSymbol).checked with
    | error e2 =>
      rw [h2] at hfail
      simp only [Option.some.injEq] at hfail
      exact ⟨_, by rw [hfail]⟩
    | panic => rw [h2] at hfail; simp at hfail
    | ok symbol =>
      rw [h2] at hfail
      simp only at hfail ⊢
      cases h3 : (ReadContract rt client
          (s.reads ++ [⟨rt.addrString (topicAddress t1), tokenName⟩] ++
            [⟨rt.addrString (topicAddress t1), tokenSymbol⟩])
          (rt.addrString (topicAddress t1)) tokenDecimals).checked with
      | error e3 =>
        rw [h3] at hfail
        simp only [Option.some.injEq] at hfail
        exact ⟨_, by rw [hfail]⟩
      | panic => rw [h3] at hfail; simp at hfail
      | ok d => rw [h3] at hfail; simp at hfail

/-- C6: when the scan reaches a Creation-kind log of the factory address in a
successful receipt and one of its three enrichment reads returns an error,
`HandleBlockData` returns that error and executes no statement, whatever rows
the preceding logs of the block have queued. -/
theorem C6_failed_enrichment_aborts (rt : Runtime) (factoryAddr : Address) (client : Client)
    (tx : Tx) (pre post : List Receipt) (r : Receipt) (lpre lpost : List Log) (l : Log)
    (s0 s : ScanState) (t0 t1 : Hash256) (rest : List Hash256) (e : Error)
    (hstatus : r.Status = 1) (hlogs : r.logs = lpre ++ l :: lpost)
    (hpre : scanReceipts rt factoryAddr client pre ScanState.init = .next s0)
    (hlpre : scanLogs rt factoryAddr client r 0 lpre s0 = .next s)
    (haddr : l.Address = rt.addrString factoryAddr)
    (htop : l.Topics = t0 :: t1 :: rest)
    (hsig : hexEncodeToString t0.bytes = creationSig)
    (hfail : enrichmentError rt client s.reads (rt.addrString (topicAddress t1)) = some e) :
    (HandleBlockData rt ⟨some factoryAddr⟩ ⟨some client⟩ tx ⟨⟨pre ++ r :: post⟩⟩).result =
      .error e ∧
    (HandleBlockData rt ⟨some factoryAddr⟩ ⟨some client⟩ tx ⟨⟨pre ++ r :: post⟩⟩).execs =
      [] := by
  obtain ⟨reads, hc⟩ := handleCreation_fail rt client l s t0 t1 rest e htop hfail
  have hne1 : creationSig ≠ additionSig := by decide
  have hne2 : creationSig ≠ removalSig := by decide
  have hl : handleLog rt factoryAddr client r (0 + lpre.length) l s = .fail e reads := by
    simp [handleLog, haddr, htop, hsig, hne1, hne2, hc]
  have hr : scanLogs rt factoryAddr client r 0 r.logs s0 = .fail e reads := by
    rw [hlogs, scanLogs_append, hlpre]
    simp only [scanLogs, hl]
  have hs : scanReceipts rt factoryAddr client (pre ++ r :: post) ScanState.init =
      .fail e reads := by
    rw [scanReceipts_append, hpre]
    simp [scanReceipts, hstatus, hr]
  simp [HandleBlockData, hs]

/-- C6 on a block whose receipt holds an Addition-kind log, which queues a
row, and then a Creation-kind log whose name read fails. -/
theorem C6_failed_enrichment_aborts_witness :
    enrichmentError rt0 cliDown [] (rt0.addrString (topicAddress (word 9))) =
      some (.client "unavailable") ∧
    HandleBlockData rt0 ⟨some factory0⟩ ⟨some cliDown⟩ txOk
      ⟨⟨[] ++ okReceipt ([factoryLog [additionTopic, word 9, word 5, word 6]] ++
        creationLog rt0 :: []) :: []⟩⟩ =
      ⟨.error (.client "unavailable"),
        [⟨rt0.addrString (topicAddress (word 9)), tokenName⟩], []⟩ ∧
    (HandleBlockData rt0 ⟨some factory0⟩ ⟨some cliDown⟩ txOk
      ⟨⟨[] ++ okReceipt ([factoryLog [additionTopic, word 9, word 5, word 6]] ++
        creationLog rt0 :: []) :: []⟩⟩).result = .error (.client "unavailable") ∧
    (HandleBlockData rt0 ⟨some factory0⟩ ⟨some cliDown⟩ txOk
      ⟨⟨[] ++ okReceipt ([factoryLog [additionTopic, word 9, word 5, word 6]] ++
        creationLog rt0 :: []) :: []⟩⟩).execs = [] :=
  ⟨by decide, by decide,
    C6_failed_enrichment_aborts rt0 factory0 cliDown txOk [] []
      (okReceipt ([factoryLog [additionTopic, word 9, word 5, word 6]] ++ creationLog rt0 :: []))
      [factoryLog [additionTopic, word 9, word 5, word 6]] [] (creationLog rt0)
      ScanState.init
      { ScanState.init with
        actionValStrs := [placeholders]
        actionValArgs :=
          [ .hash (word 77), .int 0, .uint64 10, .str "exchange-1",
            .str (rt0.addrString (topicAddress (word 9))),
            .str "5", .str "6" ] }
      creationTopic (word 9) [word 8] (.client "unavailable")
      rfl rfl rfl (by decide) rfl rfl (by decide) (by decide)⟩

/-! ## Column order of the action rows -/

set_option maxRecDepth 100000 in
/-- C7: the row queued for an Addition-kind log of a receipt with block
height 10 and contract address "exchange-1" binds the block height to the
third column, `exchange`, and the contract address to the fourth,
`block_height`. -/
theorem C7_action_row_swaps_columns :
    HandleBlockData rt0 p0 ⟨some cliDown⟩ txOk
      ⟨⟨[okReceipt [factoryLog [additionTopic, word 9, word 5, word 6]]]⟩⟩ =
      ⟨.success, [],
        [⟨"INSERT INTO `mimo_exchange_provider_actions` (`action_hash`,`idx`,`exchange`,`block_height`,`provider`,`iotx_amount`,`token_amount`) VALUES (?,?,?,?,?,?,?)",
          [ .hash (word 77), .int 0, .uint64 10, .str "exchange-1",
            .str (rt0.addrString (topicAddress (word 9))), .str "5", .str "6" ]⟩]⟩ := by
  decide

/-! ## No factory address -/

/-- C8: a protocol without a factory address returns success for every
context, transaction and block, and issues no read and executes no
statement. -/
theorem C8_unconfigured_is_noop (rt : Runtime) (ctx : Context) (tx : Tx) (data : BlockData) :
    HandleBlockData rt ⟨none⟩ ctx tx data = ⟨.success, [], []⟩ := rfl

/-! ## Receipts that did not succeed -/

theorem scanReceipts_filter (rt : Runtime) (factoryAddr : Address) (client : Client)
    (rs : List Receipt) (s : ScanState) :
    scanReceipts rt factoryAddr client rs s =
      scanReceipts rt factoryAddr client (rs.filter fun r => r.Status = 1) s := by
  induction rs generalizing s with
  | nil => rfl
  | cons r rs ih =>
    by_cases h : r.Status = 1
    · simp only [List.filter_cons, h, decide_True, if_true, scanReceipts, ne_eq, not_true_eq_false,
        if_false]
      cases scanLogs rt factoryAddr client r 0 r.logs s with
      | next s1 => exact ih s1
      | fail e r => rfl
      | crash r => rfl
    · simp only [List.filter_cons, h, decide_False, scanReceipts, ne_eq, not_false_eq_true,
        if_true]
      simpa using ih s

/-- C9: the outcome of `HandleBlockData` on a block is its outcome on the
block without the receipts whose status is not 1, and so is the state the
scan ends in. -/
theorem C9_failed_receipts_ignored (rt : Runtime) (p : Protocol) (ctx : Context) (tx : Tx)
    (data : BlockData) :
    HandleBlockData rt p ctx tx data =
      HandleBlockData rt p ctx tx ⟨⟨data.Block.Receipts.filter fun r => r.Status = 1⟩⟩ ∧
    ∀ factoryAddr client s,
      scanReceipts rt factoryAddr client data.Block.Receipts s =
        scanReceipts rt factoryAddr client
          (data.Block.Receipts.filter fun r => r.Status = 1) s := by
  refine ⟨?_, fun f c s => scanReceipts_filter rt f c _ s⟩
  unfold HandleBlockData
  cases p.factoryAddr with
  | none => rfl
  | some f =>
    cases ctx.serviceClient with
    | none => rfl
    | some c =>
      simp only
      rw [← scanReceipts_filter]

/-! ## The statements executed after the scan -/

theorem sprintfChars_suffix (pre a : List Char) (h : ∀ c ∈ pre, c ≠ '%') :
    sprintfChars (pre ++ ['%', 's']) a = pre ++ a := by
  induction pre with
  | nil => simp [sprintfChars]
  | cons c pre ih =>
    have hc : c ≠ '%' := h c (List.mem_cons_self c pre)
    have ih1 := ih (fun x hx => h x (List.mem_cons_of_mem c hx))
    cases pre with
    | nil => simp [sprintfChars, hc]
    | cons d pre =>
      have ih2 : sprintfChars (d :: (pre ++ ['%', 's'])) a = d :: (pre ++ a) := by
        simpa using ih1
      simp only [List.cons_append, sprintfChars, hc, false_and, if_false]
      exact congrArg (List.cons c) ih2

set_option maxRecDepth 100000 in
theorem Sprintf_insertExchangeQuery (groups : List String) :
    Sprintf insertExchangeQuery groups =
      "INSERT INTO `mimo_exchange_creations` (`exchange`,`token`,`block_height`,`action_hash`,`token_name`,`token_symbol`,`token_decimals`) VALUES " ++
        ",".intercalate groups := by
  have h : insertExchangeQuery.toList =
      "INSERT INTO `mimo_exchange_creations` (`exchange`,`token`,`block_height`,`action_hash`,`token_name`,`token_symbol`,`token_decimals`) VALUES ".toList ++
        ['%', 's'] := by decide
  unfold Sprintf
  rw [h, sprintfChars_suffix _ _ (by decide)]
  rfl

set_option maxRecDepth 100000 in
theorem Sprintf_insertProviderActionsQuery (groups : List String) :
    Sprintf insertProviderActionsQuery groups =
      "INSERT INTO `mimo_exchange_provider_actions` (`action_hash`,`idx`,`exchange`,`block_height`,`provider`,`iotx_amount`,`token_amount`) VALUES " ++
        ",".intercalate groups := by
  have h : insertProviderActionsQuery.toList =
      "INSERT INTO `mimo_exchange_provider_actions` (`action_hash`,`idx`,`exchange`,`block_height`,`provider`,`iotx_amount`,`token_amount`) VALUES ".toList ++
        ['%', 's'] := by decide
  unfold Sprintf
  rw [h, sprintfChars_suffix _ _ (by decide)]
  rfl

theorem RowsInv_init : RowsInv ScanState.init := by
  simp [RowsInv, ScanState.init]

theorem handleAddition_inv (rt : Runtime) (receipt : Receipt) (i : Nat) (l : Log)
    (s s1 : ScanState) (h : handleAddition rt receipt i l s = .next s1) (hs : RowsInv s) :
    RowsInv s1 := by
  unfold handleAddition at h
  repeat' split at h
  all_goals first
    | (obtain ⟨h1, h2, h3, h4⟩ := hs
       cases h
       refine ⟨h1, h2, ?_, ?_⟩
       · intro g hg
         rcases List.mem_append.1 hg with hg | hg
         · exact h3 g hg
         · simpa using hg
       · simp [h4]; omega)
    | cases h

theorem handleRemoval_inv (rt : Runtime) (receipt : Receipt) (i : Nat) (l : Log)
    (s s1 : ScanState) (h : handleRemoval rt receipt i l s = .next s1) (hs : RowsInv s) :
    RowsInv s1 := by
  unfold handleRemoval at h
  repeat' split at h
  all_goals first
    | (obtain ⟨h1, h2, h3, h4⟩ := hs
       cases h
       refine ⟨h1, h2, ?_, ?_⟩
       · intro g hg
         rcases List.mem_append.1 hg with hg | hg
         · exact h3 g hg
         · simpa using hg
       · simp [h4]; omega)
    | cases h

theorem handleCreation_inv (rt : Runtime) (client : Client) (l : Log)
    (s s1 : ScanState) (h : handleCreation rt client l s = .next s1) (hs : RowsInv s) :
    RowsInv s1 := by
  simp only [handleCreation] at h
  repeat' split at h
  all_goals first
    | (obtain ⟨h1, h2, h3, h4⟩ := hs
       cases h
       refine ⟨?_, ?_, h3, h4⟩
       · intro g hg
         rcases List.mem_append.1 hg with hg | hg
         · exact h1 g hg
         · simpa using hg
       · simp [h2]; omega)
    | cases h

theorem handleLog_inv (rt : Runtime) (factoryAddr : Address) (client : Client)
    (receipt : Receipt) (i : Nat) (l : Log) (s s1 : ScanState)
    (h : handleLog rt factoryAddr client receipt i l s = .next s1) (hs : RowsInv s) :
    RowsInv s1 := by
  unfold handleLog at h
  repeat' split at h
  · cases h; exact hs
  · cases h; exact hs
  · exact handleAddition_inv rt receipt i l s s1 h hs
  · exact handleRemoval_inv rt receipt i l s s1 h hs
  · exact handleCreation_inv rt client l s s1 h hs
  · cases h; exact hs

theorem scanLogs_inv (rt : Runtime) (factoryAddr : Address) (client : Client)
    (receipt : Receipt) (ls : List Log) (i : Nat) (s s1 : ScanState)
    (h : scanLogs rt factoryAddr client receipt i ls s = .next s1) (hs : RowsInv s) :
    RowsInv s1 := by
  induction ls generalizing i s with
  | nil => cases h; exact hs
  | cons l ls ih =>
    simp only [scanLogs] at h
    cases hl : handleLog rt factoryAddr client receipt i l s with
    | next s2 =>
      rw [hl] at h
      exact ih (i + 1) s2 h (handleLog_inv rt factoryAddr client receipt i l s s2 hl hs)
    | fail e r => rw [hl] at h; cases h
    | crash r => rw [hl] at h; cases h

theorem scanReceipts_inv (rt : Runtime) (factoryAddr : Address) (client : Client)
    (rs : List Receipt) (s s1 : ScanState)
    (h : scanReceipts rt factoryAddr client rs s = .next s1) (hs : RowsInv s) :
    RowsInv s1 := by
  induction rs generalizing s with
  | nil => cases h; exact hs
  | cons r rs ih =>
    simp only [scanReceipts] at h
    split at h
    · exact ih s h hs
    · cases hl : scanLogs rt factoryAddr client r 0 r.logs s with
      | next s2 =>
        rw [hl] at h
        exact ih s2 h (scanLogs_inv rt factoryAddr client r r.logs 0 s s2 hl hs)
      | fail e r => rw [hl] at h; cases h
      | crash r => rw [hl] at h; cases h

set_option maxRecDepth 100000 in
/-- C10, as stated, fails: on a block with a Creation-kind and an
Addition-kind log the scan succeeds with one row queued for each table, and
when the creation insert fails the action insert is not executed. -/
theorem C10_counterexample :
    (match scanReceipts rt0 factory0 cliToken
        [okReceipt [creationLog rt0, factoryLog [additionTopic, word 9, word 5, word 6]]]
        ScanState.init with
      | .next s => (s.valStrs.length, s.actionValStrs.length)
      | _ => (0, 0)) = (1, 1) ∧
    (HandleBlockData rt0 p0 ⟨some cliToken⟩ txFail
      ⟨⟨[okReceipt [creationLog rt0,
        factoryLog [additionTopic, word 9, word 5, word 6]]]⟩⟩).result =
      .error (.sql "duplicate key") ∧
    (HandleBlockData rt0 p0 ⟨some cliToken⟩ txFail
      ⟨⟨[okReceipt [creationLog rt0,
        factoryLog [additionTopic, word 9, word 5, word 6]]]⟩⟩).execs.map Stmt.query =
      [exchangeInsertText 1] := by
  refine ⟨by decide, by decide, by decide⟩

/-- C10, amended: after a successful scan the creation insert is executed
exactly when a Creation row is pending, first; the action insert is executed
exactly when an Addition or Removal row is pending and the creation insert,
if executed, did not fail; each statement holds one placeholder group per
pending row, and seven arguments per row. -/
theorem C10_inserts_after_scan (rt : Runtime) (factoryAddr : Address) (client : Client)
    (tx : Tx) (data : BlockData) (s : ScanState)
    (hscan : scanReceipts rt factoryAddr client data.Block.Receipts ScanState.init = .next s) :
    s.valArgs.length = 7 * s.valStrs.length ∧
    s.actionValArgs.length = 7 * s.actionValStrs.length ∧
    (HandleBlockData rt ⟨some factoryAddr⟩ ⟨some client⟩ tx data).execs =
      (if s.valStrs.length ≠ 0 then
        [⟨exchangeInsertText s.valStrs.length, s.valArgs⟩] else []) ++
      (if s.actionValStrs.length ≠ 0 ∧
          (s.valStrs.length = 0 ∨
            tx.Exec [] ⟨exchangeInsertText s.valStrs.length, s.valArgs⟩ = none) then
        [⟨providerActionsInsertText s.actionValStrs.length, s.actionValArgs⟩] else []) := by
  obtain ⟨h1, h2, h3, h4⟩ := scanReceipts_inv rt factoryAddr client _ _ s hscan RowsInv_init
  have hv : s.valStrs = List.replicate s.valStrs.length "(?,?,?,?,?,?,?)" :=
    List.eq_replicate_length.2 h1
  have ha : s.actionValStrs = List.replicate s.actionValStrs.length "(?,?,?,?,?,?,?)" :=
    List.eq_replicate_length.2 h3
  have hq1 : exchangeStmt s = ⟨exchangeInsertText s.valStrs.length, s.valArgs⟩ := by
    unfold exchangeStmt exchangeInsertText
    rw [Sprintf_insertExchangeQuery, ← hv]
  have hq2 : providerActionsStmt s =
      ⟨providerActionsInsertText s.actionValStrs.length, s.actionValArgs⟩ := by
    unfold providerActionsStmt providerActionsInsertText
    rw [Sprintf_insertProviderActionsQuery, ← ha]
  refine ⟨h2, h4, ?_⟩
  simp only [HandleBlockData, hscan, flush, flushActions, hq1, hq2]
  by_cases hc : s.valStrs.length = 0
  · by_cases hact : s.actionValStrs.length = 0
    · simp [hc, hact]
    · cases hx : tx.Exec [] ⟨providerActionsInsertText s.actionValStrs.length,
          s.actionValArgs⟩ <;> simp [hc, hact, hx]
  · cases hx : tx.Exec [] ⟨exchangeInsertText s.valStrs.length, s.valArgs⟩ with
    | some e => simp [hc, hx]
    | none =>
      by_cases hact : s.actionValStrs.length = 0
      · simp [hc, hact, hx]
      · cases hy : tx.Exec [⟨exchangeInsertText s.valStrs.length, s.valArgs⟩]
            ⟨providerActionsInsertText s.actionValStrs.length, s.actionValArgs⟩ <;>
          simp [hc, hact, hx, hy]

set_option maxRecDepth 100000 in
/-- C10, amended, on a block with one Creation row and one Addition row and
a transaction whose statements succeed: the creation insert, then the action
insert, each for one row. -/
theorem C10_inserts_after_scan_witness :
    scanReceipts rt0 factory0 cliToken mixedBlock.Block.Receipts ScanState.init =
      .next (finalState
        (scanReceipts rt0 factory0 cliToken mixedBlock.Block.Receipts ScanState.init)) ∧
    (HandleBlockData rt0 ⟨some factory0⟩ ⟨some cliToken⟩ txOk mixedBlock).execs.map
      Stmt.query = [exchangeInsertText 1, providerActionsInsertText 1] :=
  ⟨by decide, by
    rw [(C10_inserts_after_scan rt0 factory0 cliToken txOk mixedBlock
      (finalState
        (scanReceipts rt0 factory0 cliToken mixedBlock.Block.Receipts ScanState.init))
      (by decide)).2.2]
    decide⟩

/-! ## The errors a scan returns -/

theorem checked_error_isRead (rt : Runtime) (cli : Client) (hist : List ReadRequest)
    (addr : String) (cd : List Byte) (e : Error)
    (h : (ReadContract rt cli hist addr cd).checked = .error e) : IsReadError e := by
  unfold ReadContract at h
  cases hc : cli.ReadContract hist ⟨addr, cd⟩ with
  | error m =>
    rw [hc] at h
    simp only [ReadOut.checked, Res.error.injEq] at h
    exact Or.inl ⟨m, h.symm⟩
  | response receipt data =>
    rw [hc] at h
    cases receipt with
    | none => simp [ReadOut.checked] at h
    | some status =>
      simp only at h
      split at h
      · simp only [ReadOut.checked, Res.error.injEq] at h
        exact Or.inr (Or.inl h.symm)
      · unfold hexDecodeString at h
        cases hd : hexDecode data.toList with
        | none =>
          rw [hd] at h
          simp only [ReadOut.checked, Res.error.injEq] at h
          exact Or.inr (Or.inr h.symm)
        | some bs =>
          rw [hd] at h
          simp [ReadOut.checked] at h

theorem enrichmentError_isRead (rt : Runtime) (client : Client) (hist : List ReadRequest)
    (addr : String) (e : Error) (h : enrichmentError rt client hist addr = some e) :
    IsReadError e := by
  unfold enrichmentError at h
  repeat' split at h
  all_goals first
    | (simp only [Option.some.injEq] at h
       subst h
       exact checked_error_isRead _ _ _ _ _ _ (by assumption))
    | cases h

theorem handleAddition_ne_fail (rt : Runtime) (receipt : Receipt) (i : Nat) (l : Log)
    (s : ScanState) (e : Error) (r : List ReadRequest) :
    handleAddition rt receipt i l s ≠ .fail e r := by
  intro h
  simp only [handleAddition, ConvertTopicToAddress_eq] at h
  repeat' split at h
  all_goals cases h

theorem handleRemoval_ne_fail (rt : Runtime) (receipt : Receipt) (i : Nat) (l : Log)
    (s : ScanState) (e : Error) (r : List ReadRequest) :
    handleRemoval rt receipt i l s ≠ .fail e r := by
  intro h
  simp only [handleRemoval, ConvertTopicToAddress_eq] at h
  repeat' split at h
  all_goals cases h

theorem handleCreation_fail_inv (rt : Runtime) (client : Client) (l : Log) (s : ScanState)
    (e : Error) (r : List ReadRequest) (h : handleCreation rt client l s = .fail e r) :
    ∃ t1, l.Topics[1]? = some t1 ∧
      enrichmentError rt client s.reads (rt.addrString (topicAddress t1)) = some e := by
  simp only [handleCreation, ConvertTopicToAddress_eq] at h
  cases ht : l.Topics[1]? with
  | none => rw [ht] at h; cases h
  | some t1 =>
    rw [ht] at h
    refine ⟨t1, rfl, ?_⟩
    simp only at h
    unfold enrichmentError
    cases h1 : (ReadContract rt client s.reads (rt.addrString (topicAddress t1))
        tokenName).checked with
    | panic => rw [h1] at h; cases h
    | error e1 => rw [h1] at h; cases h; rfl
    | ok name =>
      rw [h1] at h
      simp only at h ⊢
      cases h2 : (ReadContract rt client
          (s.reads ++ [⟨rt.addrString (topicAddress t1), tokenName⟩])
          (rt.addrString (topicAddress t1)) tokenSymbol).checked with
      | panic => rw [h2] at h; cases h
      | error e2 => rw [h2] at h; cases h; rfl
      | ok symbol =>
        rw [h2] at h
        simp only at h ⊢
        cases h3 : (ReadContract rt client
            (s.reads ++ [⟨rt.addrString (topicAddress t1), tokenName⟩] ++
              [⟨rt.addrString (topicAddress t1), tokenSymbol⟩])
            (rt.addrString (topicAddress t1)) tokenDecimals).checked with
        | panic => rw [h3] at h; cases h
        | error e3 => rw [h3] at h; cases h; rfl
        | ok decimals =>
          rw [h3] at h
          simp only at h
          repeat' split at h
          all_goals cases h

theorem handleLog_fail_inv (rt : Runtime) (factoryAddr : Address) (client : Client)
    (receipt : Receipt) (i : Nat) (l : Log) (s : ScanState) (e : Error)
    (r : List ReadRequest) (h : handleLog rt factoryAddr client receipt i l s = .fail e r) :
    sigOf l = some creationSig ∧
    ∃ t1, l.Topics[1]? = some t1 ∧
      enrichmentError rt client s.reads (rt.addrString (topicAddress t1)) = some e := by
  unfold handleLog at h
  split at h
  · cases h
  · cases ht : l.Topics with
    | nil => rw [ht] at h; cases h
    | cons t0 rest =>
      rw [ht] at h
      simp only at h
      split at h
      · exact absurd h (handleAddition_ne_fail rt receipt i l s e r)
      · split at h
        · exact absurd h (handleRemoval_ne_fail rt receipt i l s e r)
        · split at h
          · rename_i hsig
            refine ⟨by simp [sigOf, ht, hsig], ?_⟩
            have hc := handleCreation_fail_inv rt client l s e r h
            rw [ht] at hc
            exact hc
          · cases h

theorem scanLogs_fail_isRead (rt : Runtime) (factoryAddr : Address) (client : Client)
    (receipt : Receipt) (ls : List Log) (i : Nat) (s : ScanState) (e : Error)
    (r : List ReadRequest) (h : scanLogs rt factoryAddr client receipt i ls s = .fail e r) :
    IsReadError e := by
  induction ls generalizing i s with
  | nil => cases h
  | cons l ls ih =>
    simp only [scanLogs] at h
    cases hl : handleLog rt factoryAddr client receipt i l s with
    | next s1 => rw [hl] at h; exact ih (i + 1) s1 h
    | fail e1 r1 =>
      rw [hl] at h
      cases h
      obtain ⟨_, t1, _, he⟩ := handleLog_fail_inv rt factoryAddr client receipt i l s e r hl
      exact enrichmentError_isRead _ _ _ _ _ he
    | crash r1 => rw [hl] at h; cases h

theorem scanReceipts_fail_isRead (rt : Runtime) (factoryAddr : Address) (client : Client)
    (rs : List Receipt) (s : ScanState) (e : Error) (r : List ReadRequest)
    (h : scanReceipts rt factoryAddr client rs s = .fail e r) : IsReadError e := by
  induction rs generalizing s with
  | nil => cases h
  | cons rc rs ih =>
    simp only [scanReceipts] at h
    split at h
    · exact ih s h
    · cases hl : scanLogs rt factoryAddr client rc 0 rc.logs s with
      | next s1 => rw [hl] at h; exact ih s1 h
      | fail e1 r1 =>
        rw [hl] at h
        cases h
        exact scanLogs_fail_isRead rt factoryAddr client rc rc.logs 0 s e r hl
      | crash r1 => rw [hl] at h; cases h

theorem IsReadError_ne_invalidAddress (e : Error) (h : IsReadError e) (n : Nat) :
    e ≠ .invalidAddress n := by
  rcases h with ⟨m, rfl⟩ | rfl | rfl <;> simp

/-! ## Topic words as addresses -/

/-- C12: `ConvertTopicToAddress` returns the address whose bytes are bytes
12..31 of the topic word; two words decode to the same address exactly when
they agree on those 20 bytes. -/
theorem C12_address_is_low_20_bytes (t u : Hash256) :
    (∃ a, ConvertTopicToAddress t = .ok a ∧ a.bytes = t.bytes.drop 12 ∧
      a.bytes.length = 20 ∧ ∀ i, a.bytes[i]? = t.bytes[12 + i]?) ∧
    (t.bytes.drop 12 = u.bytes.drop 12 ↔
      ConvertTopicToAddress t = ConvertTopicToAddress u) := by
  constructor
  · refine ⟨topicAddress t, ConvertTopicToAddress_eq t, rfl, (topicAddress t).size_eq, ?_⟩
    intro i
    simp [topicAddress, List.getElem?_drop]
  · constructor
    · intro h
      simp [ConvertTopicToAddress, h]
    · intro h
      rw [ConvertTopicToAddress_eq, ConvertTopicToAddress_eq] at h
      have h1 : topicAddress t = topicAddress u := by injection h
      exact congrArg Address.bytes h1

/-- C20: the slice `topic[12:]` has 20 bytes, the length `address.FromBytes`
accepts and the only one, so `ConvertTopicToAddress` returns no error and no
scan returns the error of an address conversion. -/
theorem C20_ConvertTopicToAddress_succeeds (t : Hash256) :
    (t.bytes.drop 12).length = 20 ∧
    (∀ b, (∃ a, FromBytes b = .ok a) ↔ b.length = 20) ∧
    (∃ a, ConvertTopicToAddress t = .ok a) ∧
    (∀ e, ConvertTopicToAddress t ≠ .error e) ∧
    (∀ rt factoryAddr client rs s e r,
      scanReceipts rt factoryAddr client rs s = .fail e r → ∀ n, e ≠ .invalidAddress n) := by
  refine ⟨by simp [t.size_eq], ?_, ⟨_, ConvertTopicToAddress_eq t⟩, ?_, ?_⟩
  · intro b
    unfold FromBytes
    constructor
    · rintro ⟨a, h⟩
      by_contra hb
      simp [hb] at h
    · intro hb
      exact ⟨⟨b, hb⟩, by simp [hb]⟩
  · intro e h
    rw [ConvertTopicToAddress_eq] at h
    cases h
  · intro rt f c rs s e r h n
    exact IsReadError_ne_invalidAddress e (scanReceipts_fail_isRead rt f c rs s e r h) n

/-- C20 on the topic word holding 9, and on a scan that fails on a read. -/
theorem C20_ConvertTopicToAddress_succeeds_witness :
    ((word 9).bytes.drop 12).length = 20 ∧
    scanReceipts rt0 factory0 cliDown [okReceipt [creationLog rt0]] ScanState.init =
      .fail (.client "unavailable") [⟨rt0.addrString (topicAddress (word 9)), tokenName⟩] ∧
    Error.client "unavailable" ≠ Error.invalidAddress 20 :=
  ⟨(C20_ConvertTopicToAddress_succeeds (word 9)).1, by decide,
    (C20_ConvertTopicToAddress_succeeds (word 9)).2.2.2.2 rt0 factory0 cliDown
      [okReceipt [creationLog rt0]] ScanState.init (.client "unavailable")
      [⟨rt0.addrString (topicAddress (word 9)), tokenName⟩] (by decide) 20⟩

/-! ## No service client -/

/-- C18: with a factory address and no service client in the context,
`HandleBlockData` returns the error of the client lookup on every block,
issues no read and executes no statement. -/
theorem C18_no_client_is_error (rt : Runtime) (factoryAddr : Address) (tx : Tx)
    (data : BlockData) :
    HandleBlockData rt ⟨some factoryAddr⟩ ⟨none⟩ tx data =
      ⟨.error .noServiceClient, [], []⟩ := rfl

/-! ## `ReadContract` -/

/-- C13: when the client call fails `ReadContract` returns nil bytes and the
client's error; when the receipt's status is not 1 it returns nil bytes and
the error "failed to read contract", which is no client error; when the
status is 1 it returns the two results of `hex.DecodeString` on the response
data, which for hexadecimal text are the decoded bytes and no error. -/
theorem C13_ReadContract_results (rt : Runtime) (cli : Client) (hist : List ReadRequest)
    (addr : String) (callData : List Byte) :
    (∀ m, cli.ReadContract hist ⟨addr, callData⟩ = .error m →
      ReadContract rt cli hist addr callData = .ret .nil (some (.client m))) ∧
    (∀ status data, cli.ReadContract hist ⟨addr, callData⟩ = .response (some status) data →
      status ≠ 1 → ReadContract rt cli hist addr callData = .ret .nil (some .readFailed)) ∧
    ByteSlice.nil.contents = [] ∧
    (∀ m, Error.readFailed ≠ Error.client m) ∧
    (∀ data, cli.ReadContract hist ⟨addr, callData⟩ = .response (some 1) data →
      ReadContract rt cli hist addr callData =
        .ret (hexDecodeString rt data).1 (hexDecodeString rt data).2 ∧
      ∀ bs, hexDecode data.toList = some bs →
        ReadContract rt cli hist addr callData = .ret ⟨bs ++ rt.spare data, bs.length⟩ none ∧
        (ByteSlice.mk (bs ++ rt.spare data) bs.length).contents = bs) := by
  refine ⟨?_, ?_, rfl, ?_, ?_⟩
  · intro m h
    simp [ReadContract, h]
  · intro status data h hs
    simp [ReadContract, h, hs]
  · intro m h
    cases h
  · intro data h
    have h1 : ReadContract rt cli hist addr callData =
        .ret (hexDecodeString rt data).1 (hexDecodeString rt data).2 := by
      simp [ReadContract, h]
    refine ⟨h1, ?_⟩
    intro bs hbs
    have hbs1 : hexDecode data.data = some bs := hbs
    rw [h1]
    simp [hexDecodeString, hbs1, ByteSlice.contents]

/-- C13 on three clients: one that fails, one that returns status 0, one that
returns status 1 and the encoding of "ABCDE". -/
theorem C13_ReadContract_results_witness :
    ReadContract rt0 cliDown [] "token" tokenName =
      .ret .nil (some (.client "unavailable")) ∧
    ReadContract rt0 cliReverted [] "token" tokenName = .ret .nil (some .readFailed) ∧
    ReadContract rt0 cliToken [] "token" tokenName =
      .ret ⟨abcdeBytes ++ rt0.spare abcdeData, abcdeBytes.length⟩ none :=
  ⟨(C13_ReadContract_results rt0 cliDown [] "token" tokenName).1 "unavailable" rfl,
    (C13_ReadContract_results rt0 cliReverted [] "token" tokenName).2.1 0 "" rfl (by decide),
    ((C13_ReadContract_results rt0 cliToken [] "token" tokenName).2.2.2.2 abcdeData rfl).2
      abcdeBytes (by decide) |>.1⟩

/-! ## Big-endian values and decimal text -/

theorem SetBytes_foldl (bs : List Byte) (a : Nat) :
    bs.foldl (fun acc x => acc * 256 + x.val) a = a * 256 ^ bs.length + SetBytes bs := by
  induction bs generalizing a with
  | nil => simp [SetBytes]
  | cons x xs ih =>
    simp only [SetBytes, List.foldl_cons, List.length_cons]
    rw [ih (a * 256 + x.val), ih (0 * 256 + x.val)]
    ring

theorem SetBytes_cons (x : Byte) (xs : List Byte) :
    SetBytes (x :: xs) = x.val * 256 ^ xs.length + SetBytes xs := by
  have h := SetBytes_foldl xs (0 * 256 + x.val)
  simp only [SetBytes, List.foldl_cons]
  rw [h]
  simp [SetBytes]

theorem SetBytes_append_single (bs : List Byte) (x : Byte) :
    SetBytes (bs ++ [x]) = SetBytes bs * 256 + x.val := by
  simp [SetBytes, List.foldl_append]

theorem SetBytes_lt (bs : List Byte) : SetBytes bs < 256 ^ bs.length := by
  induction bs with
  | nil => simp [SetBytes]
  | cons x xs ih =>
    rw [SetBytes_cons, List.length_cons, pow_succ]
    have hx : x.val < 256 := x.isLt
    have hp : 0 < 256 ^ xs.length := by positivity
    nlinarith

theorem SetBytes_injective (a b : List Byte) (hlen : a.length = b.length)
    (h : SetBytes a = SetBytes b) : a = b := by
  induction a generalizing b with
  | nil =>
    cases b with
    | nil => rfl
    | cons y ys => simp at hlen
  | cons x xs ih =>
    cases b with
    | nil => simp at hlen
    | cons y ys =>
      have hl : xs.length = ys.length := by simpa using hlen
      rw [SetBytes_cons, SetBytes_cons, hl] at h
      have hA := SetBytes_lt xs
      have hB := SetBytes_lt ys
      rw [hl] at hA
      have hp : 0 < 256 ^ ys.length := by positivity
      have hmod := congrArg (fun v => v % 256 ^ ys.length) h
      simp only [Nat.mul_add_mod_of_lt, Nat.add_comm (x.val * _), Nat.add_comm (y.val * _),
        Nat.add_mul_mod_self_right, Nat.mod_eq_of_lt hA, Nat.mod_eq_of_lt hB] at hmod
      rw [hmod] at h
      have hxy : x.val * 256 ^ ys.length = y.val * 256 ^ ys.length := by omega
      have hv : x.val = y.val := Nat.eq_of_mul_eq_mul_right hp hxy
      have hxe : x = y := Fin.ext hv
      rw [hxe, ih ys hl hmod]

theorem SetBytes_surjective (k n : Nat) (h : n < 256 ^ k) :
    ∃ bs : List Byte, bs.length = k ∧ SetBytes bs = n := by
  induction k generalizing n with
  | zero =>
    have : n = 0 := by simpa using h
    exact ⟨[], rfl, by simp [SetBytes, this]⟩
  | succ k ih =>
    have hq : n / 256 < 256 ^ k := by
      rw [pow_succ] at h
      exact Nat.div_lt_of_lt_mul (by rw [Nat.mul_comm]; exact h)
    obtain ⟨bs, hl, hv⟩ := ih (n / 256) hq
    refine ⟨bs ++ [⟨n % 256, Nat.mod_lt n (by norm_num)⟩], by simp [hl], ?_⟩
    rw [SetBytes_append_single, hv]
    exact Nat.div_add_mod' n 256

theorem digitChar_toNat (d : Nat) : (digitChar d).toNat - 48 = d % 10 := by
  have h : d % 10 < 10 := Nat.mod_lt d (by norm_num)
  unfold digitChar
  generalize d % 10 = k at h
  interval_cases k <;> rfl

theorem decimalValue_append_single (cs : List Char) (c : Char) :
    decimalValue (cs ++ [c]) = decimalValue cs * 10 + (c.toNat - 48) := by
  simp [decimalValue, List.foldl_append]

theorem natDigits_spec (fuel n : Nat) (acc : List Char) (h : n < 10 ^ fuel) :
    ∃ ds, natDigits fuel n acc = ds ++ acc ∧ decimalValue ds = n := by
  induction fuel generalizing n acc with
  | zero =>
    have : n = 0 := by simpa using h
    exact ⟨[], rfl, by simp [decimalValue, this]⟩
  | succ fuel ih =>
    unfold natDigits
    split
    · rename_i hn
      refine ⟨[digitChar n], rfl, ?_⟩
      have := decimalValue_append_single [] (digitChar n)
      simp only [List.nil_append] at this
      rw [this, digitChar_toNat, Nat.mod_eq_of_lt hn]
      simp [decimalValue]
    · have hq : n / 10 < 10 ^ fuel := by
        rw [pow_succ] at h
        exact Nat.div_lt_of_lt_mul (by rw [Nat.mul_comm]; exact h)
      obtain ⟨ds, hd, hv⟩ := ih (n / 10) (digitChar n :: acc) hq
      refine ⟨ds ++ [digitChar n], by rw [hd]; simp, ?_⟩
      rw [decimalValue_append_single, hv, digitChar_toNat]
      exact Nat.div_add_mod' n 10

theorem decimalValue_natString (n : Nat) : decimalValue (natString n).toList = n := by
  have h : n < 10 ^ (n + 1) := by
    have h1 : n < 10 ^ n := Nat.lt_pow_self (by norm_num) n
    have h2 : 10 ^ n ≤ 10 ^ (n + 1) := Nat.pow_le_pow_right (by norm_num) (Nat.le_succ n)
    omega
  obtain ⟨ds, hd, hv⟩ := natDigits_spec (n + 1) n [] h
  unfold natString
  rw [hd]
  simpa using hv

theorem bigIntString_natCast (n : Nat) : bigIntString (n : Int) = natString n := by
  simp [bigIntString]

theorem bigIntString_natCast_injective (a b : Nat)
    (h : bigIntString (a : Int) = bigIntString (b : Int)) : a = b := by
  rw [bigIntString_natCast, bigIntString_natCast] at h
  have h1 := decimalValue_natString a
  rw [h] at h1
  exact h1.symm.trans (decimalValue_natString b)

/-! ## Amounts of an Addition-kind log -/

/-- C11: the amounts an Addition-kind log queues are the decimal texts of the
big-endian values of all 32 bytes of topic[2] and topic[3]: read back as
decimal numbers they are those values, every number below 2^256 is the value
of a topic word, and two different topic words give different texts. -/
theorem C11_amounts_are_full_width (rt : Runtime) (factoryAddr : Address) (client : Client)
    (receipt : Receipt) (i : Nat) (l : Log) (s : ScanState)
    (t0 t1 t2 t3 : Hash256) (rest : List Hash256)
    (hl : l.Address = rt.addrString factoryAddr)
    (ht : l.Topics = t0 :: t1 :: t2 :: t3 :: rest)
    (hsig : hexEncodeToString t0.bytes = additionSig) :
    handleLog rt factoryAddr client receipt i l s =
      .next { s with
        actionValStrs := s.actionValStrs ++ [placeholders]
        actionValArgs := s.actionValArgs ++
          [ .hash receipt.ActionHash, .int i, .uint64 receipt.BlockHeight,
            .str receipt.ContractAddress,
            .str (rt.addrString (topicAddress t1)),
            .str (bigIntString (SetBytes t2.bytes : Nat)),
            .str (bigIntString (SetBytes t3.bytes : Nat)) ] } ∧
    decimalValue (bigIntString (SetBytes t2.bytes : Nat)).toList = SetBytes t2.bytes ∧
    decimalValue (bigIntString (SetBytes t3.bytes : Nat)).toList = SetBytes t3.bytes ∧
    SetBytes t2.bytes < 2 ^ 256 ∧ SetBytes t3.bytes < 2 ^ 256 ∧
    (∀ n, n < 2 ^ 256 → ∃ t : Hash256, SetBytes t.bytes = n) ∧
    (∀ u v : Hash256,
      bigIntString (SetBytes u.bytes : Nat) = bigIntString (SetBytes v.bytes : Nat) →
        u = v) := by
  have hpow : (2 : Nat) ^ 256 = 256 ^ 32 := by norm_num
  have hlt : ∀ t : Hash256, SetBytes t.bytes < 2 ^ 256 := by
    intro t
    have h := SetBytes_lt t.bytes
    rw [t.size_eq] at h
    rw [hpow]
    exact h
  refine ⟨?_, ?_, ?_, hlt t2, hlt t3, ?_, ?_⟩
  · simp [handleLog, handleAddition, hl, ht, hsig, ConvertTopicToAddress_eq]
  · rw [bigIntString_natCast, decimalValue_natString]
  · rw [bigIntString_natCast, decimalValue_natString]
  · intro n hn
    rw [hpow] at hn
    obtain ⟨bs, hlen, hv⟩ := SetBytes_surjective 32 n hn
    exact ⟨⟨bs, hlen⟩, hv⟩
  · intro u v h
    have hv := bigIntString_natCast_injective _ _ h
    have hb := SetBytes_injective u.bytes v.bytes (by rw [u.size_eq, v.size_eq]) hv
    cases u
    cases v
    simp only at hb
    subst hb
    rfl

/-- C11 on an Addition-kind log with the amounts 2^64 + 3 and 2^255: the
texts queued are "18446744073709551619" and the 77 digits of 2^255. -/
theorem C11_amounts_are_full_width_witness :
    hexEncodeToString additionTopic.bytes = additionSig ∧
    bigIntString (SetBytes (word (2 ^ 64 + 3)).bytes : Nat) = "18446744073709551619" ∧
    bigIntString (SetBytes (word (2 ^ 255)).bytes : Nat) =
      "57896044618658097711785492504343953926634992332820282019728792003956564819968" ∧
    handleLog rt0 factory0 cliDown (okReceipt []) 0
      (factoryLog [additionTopic, word 9, word (2 ^ 64 + 3), word (2 ^ 255)])
      ScanState.init =
      .next { ScanState.init with
        actionValStrs := ScanState.init.actionValStrs ++ [placeholders]
        actionValArgs := ScanState.init.actionValArgs ++
          [ .hash (okReceipt []).ActionHash, .int 0, .uint64 (okReceipt []).BlockHeight,
            .str (okReceipt []).ContractAddress,
            .str (rt0.addrString (topicAddress (word 9))),
            .str (bigIntString (SetBytes (word (2 ^ 64 + 3)).bytes : Nat)),
            .str (bigIntString (SetBytes (word (2 ^ 255)).bytes : Nat)) ] } :=
  ⟨by decide, by decide, by decide,
    (C11_amounts_are_full_width rt0 factory0 cliDown (okReceipt []) 0
      (factoryLog [additionTopic, word 9, word (2 ^ 64 + 3), word (2 ^ 255)])
      ScanState.init additionTopic (word 9) (word (2 ^ 64 + 3)) (word (2 ^ 255)) []
      rfl rfl (by decide)).1⟩

/-! ## Logs of other addresses, and what is never rejected -/

theorem handleLog_foreign (rt : Runtime) (factoryAddr : Address) (client : Client)
    (receipt : Receipt) (i : Nat) (l : Log) (s : ScanState)
    (hne : l.Address ≠ rt.addrString factoryAddr) :
    handleLog rt factoryAddr client receipt i l s = .next s := by
  simp [handleLog, hne]

/-- C16: a log whose address is not the factory address leaves the scan
state as it is: no row, no read, no error, whatever its topics and data.
A log of the factory address with an Addition or Removal signature and four
topics always queues a row, whatever its amounts; and the only errors the loop
body returns are those of the enrichment reads of a Creation-kind log. -/
theorem C16_foreign_logs_skipped (rt : Runtime) (factoryAddr : Address) (client : Client)
    (receipt : Receipt) (i : Nat) (l : Log) (s : ScanState)
    (hne : l.Address ≠ rt.addrString factoryAddr) :
    handleLog rt factoryAddr client receipt i l s = .next s ∧
    (∀ (m : Log) (t0 t1 t2 t3 : Hash256) (rest : List Hash256),
      m.Address = rt.addrString factoryAddr → m.Topics = t0 :: t1 :: t2 :: t3 :: rest →
      hexEncodeToString t0.bytes = additionSig ∨ hexEncodeToString t0.bytes = removalSig →
      ∃ a b, handleLog rt factoryAddr client receipt i m s =
        .next { s with
          actionValStrs := s.actionValStrs ++ [placeholders]
          actionValArgs := s.actionValArgs ++
            [ .hash receipt.ActionHash, .int i, .uint64 receipt.BlockHeight,
              .str receipt.ContractAddress, .str (rt.addrString (topicAddress t1)),
              .str a, .str b ] }) ∧
    (∀ (m : Log) (e : Error) (r : List ReadRequest),
      handleLog rt factoryAddr client receipt i m s = .fail e r →
      sigOf m = some creationSig ∧
      ∃ t1, m.Topics[1]? = some t1 ∧
        enrichmentError rt client s.reads (rt.addrString (topicAddress t1)) = some e) := by
  refine ⟨handleLog_foreign rt factoryAddr client receipt i l s hne, ?_, ?_⟩
  · intro m t0 t1 t2 t3 rest hm ht hsig
    have hne1 : removalSig ≠ additionSig := by decide
    rcases hsig with hsig | hsig
    · exact ⟨bigIntString (SetBytes t2.bytes : Nat), bigIntString (SetBytes t3.bytes : Nat), by
        simp [handleLog, handleAddition, hm, ht, hsig, ConvertTopicToAddress_eq]⟩
    · exact ⟨bigIntString (-(SetBytes t2.bytes : Nat)), bigIntString (-(SetBytes t3.bytes : Nat)),
        by simp [handleLog, handleRemoval, hm, ht, hsig, hne1, ConvertTopicToAddress_eq]⟩
  · intro m e r h
    exact handleLog_fail_inv rt factoryAddr client receipt i m s e r h

/-- C16 on a log of another address that carries the Creation signature, and
on an Addition-kind log of the factory address whose amounts are zero. -/
theorem C16_foreign_logs_skipped_witness :
    (foreignLog [creationTopic, word 9, word 8]).Address ≠ rt0.addrString factory0 ∧
    handleLog rt0 factory0 cliDown (okReceipt []) 0
      (foreignLog [creationTopic, word 9, word 8]) ScanState.init = .next ScanState.init ∧
    ∃ a b, handleLog rt0 factory0 cliDown (okReceipt []) 0
      (factoryLog [additionTopic, word 9, word 0, word 0]) ScanState.init =
        .next { ScanState.init with
          actionValStrs := ScanState.init.actionValStrs ++ [placeholders]
          actionValArgs := ScanState.init.actionValArgs ++
            [ .hash (okReceipt []).ActionHash, .int 0, .uint64 (okReceipt []).BlockHeight,
              .str (okReceipt []).ContractAddress,
              .str (rt0.addrString (topicAddress (word 9))), .str a, .str b ] } :=
  ⟨by decide,
    (C16_foreign_logs_skipped rt0 factory0 cliDown (okReceipt []) 0
      (foreignLog [creationTopic, word 9, word 8]) ScanState.init (by decide)).1,
    (C16_foreign_logs_skipped rt0 factory0 cliDown (okReceipt []) 0
      (foreignLog [creationTopic, word 9, word 8]) ScanState.init (by decide)).2.1
      (factoryLog [additionTopic, word 9, word 0, word 0]) additionTopic (word 9) (word 0)
      (word 0) [] rfl rfl (Or.inl (by decide))⟩

/-! ## The row of a Creation-kind log -/

theorem decodeString_of_contents (output : ByteSlice) (head lenWord s pad : List Byte)
    (hcap : output.cap < 2 ^ 63) (hhead : head.length = 32) (hlen : lenWord.length = 32)
    (hN : SetBytes lenWord = s.length)
    (hout : output.contents = head ++ lenWord ++ s ++ pad) :
    decodeString output = some s := by
  obtain ⟨arr, len⟩ := output
  have h := (List.take_append_drop len arr).symm
  simp only [ByteSlice.contents] at hout
  rw [hout] at h
  exact decodeString_of_arr arr len head lenWord s (pad ++ arr.drop len) hcap hhead hlen hN
    (by simpa [List.append_assoc] using h)

/-- C17: a Creation-kind log of the factory address with three topics, whose
name and symbol reads return well-formed string encodings and whose decimals
read returns a value below 2^64, queues one group and the seven values
exchange address (topic[2]), token address (topic[1]), block height, action
hash in hexadecimal, name, symbol, decimals, in the order of the columns of
`insertExchangeQuery`; the three reads go to the token address with the
selectors 06fdde03, 95d89b41 and 313ce567, in this order. -/
theorem C17_creation_row (rt : Runtime) (factoryAddr : Address) (client : Client)
    (receipt : Receipt) (i : Nat) (l : Log) (s : ScanState)
    (t0 t1 t2 : Hash256) (rest : List Hash256) (name symbol decimals : ByteSlice)
    (nHead nLen nameStr nPad sHead sLen symbolStr sPad : List Byte)
    (hl : l.Address = rt.addrString factoryAddr)
    (ht : l.Topics = t0 :: t1 :: t2 :: rest)
    (hsig : hexEncodeToString t0.bytes = creationSig)
    (hname : ReadContract rt client s.reads (rt.addrString (topicAddress t1)) tokenName =
      .ret name none)
    (hsymbol : ReadContract rt client
      (s.reads ++ [⟨rt.addrString (topicAddress t1), tokenName⟩])
      (rt.addrString (topicAddress t1)) tokenSymbol = .ret symbol none)
    (hdecimals : ReadContract rt client
      (s.reads ++ [⟨rt.addrString (topicAddress t1), tokenName⟩] ++
        [⟨rt.addrString (topicAddress t1), tokenSymbol⟩])
      (rt.addrString (topicAddress t1)) tokenDecimals = .ret decimals none)
    (hncap : name.cap < 2 ^ 63) (hnh : nHead.length = 32) (hnl : nLen.length = 32)
    (hnN : SetBytes nLen = nameStr.length)
    (hnc : name.contents = nHead ++ nLen ++ nameStr ++ nPad)
    (hscap : symbol.cap < 2 ^ 63) (hsh : sHead.length = 32) (hsl : sLen.length = 32)
    (hsN : SetBytes sLen = symbolStr.length)
    (hsc : symbol.contents = sHead ++ sLen ++ symbolStr ++ sPad)
    (hd : SetBytes decimals.contents < 2 ^ 64) :
    handleLog rt factoryAddr client receipt i l s =
      .next { s with
        valStrs := s.valStrs ++ [placeholders]
        valArgs := s.valArgs ++
          [ .str (rt.addrString (topicAddress t2)),
            .str (rt.addrString (topicAddress t1)),
            .uint64 l.BlockHeight,
            .str (hexEncodeToString l.ActionHash.bytes),
            .bytes nameStr,
            .bytes symbolStr,
            .uint64 (SetBytes decimals.contents) ]
        reads := s.reads ++
          [ ⟨rt.addrString (topicAddress t1), tokenName⟩,
            ⟨rt.addrString (topicAddress t1), tokenSymbol⟩,
            ⟨rt.addrString (topicAddress t1), tokenDecimals⟩ ] } ∧
    insertExchangeQuery =
      "INSERT INTO `mimo_exchange_creations` (`exchange`,`token`,`block_height`,`action_hash`,`token_name`,`token_symbol`,`token_decimals`) VALUES %s" ∧
    hexEncodeToString tokenName = "06fdde03" ∧
    hexEncodeToString tokenSymbol = "95d89b41" ∧
    hexEncodeToString tokenDecimals = "313ce567" := by
  have hne1 : creationSig ≠ additionSig := by decide
  have hne2 : creationSig ≠ removalSig := by decide
  have hdn := decodeString_of_contents name nHead nLen nameStr nPad hncap hnh hnl hnN hnc
  have hds := decodeString_of_contents symbol sHead sLen symbolStr sPad hscap hsh hsl hsN hsc
  have hu : Uint64 (SetBytes decimals.contents) = SetBytes decimals.contents :=
    Nat.mod_eq_of_lt hd
  refine ⟨?_, rfl, by decide, by decide, by decide⟩
  simp only [List.append_assoc, List.singleton_append] at hdecimals
  simp [handleLog, handleCreation, hl, ht, hsig, hne1, hne2, ConvertTopicToAddress_eq, hname,
    hsymbol, hdecimals, ReadOut.checked, hdn, hds, hu]

/-- C17 on a Creation-kind log whose token answers "ABCDE" for the name and
the symbol and 18 for the decimals. -/
theorem C17_creation_row_witness :
    SetBytes (ByteSlice.mk (word 18).bytes 32).contents = 18 ∧
    handleLog rt0 factory0 cliToken18 (okReceipt []) 0 (creationLog rt0) ScanState.init =
      .next { ScanState.init with
        valStrs := ScanState.init.valStrs ++ [placeholders]
        valArgs := ScanState.init.valArgs ++
          [ .str (rt0.addrString (topicAddress (word 8))),
            .str (rt0.addrString (topicAddress (word 9))),
            .uint64 (creationLog rt0).BlockHeight,
            .str (hexEncodeToString (creationLog rt0).ActionHash.bytes),
            .bytes [65, 66, 67, 68, 69],
            .bytes [65, 66, 67, 68, 69],
            .uint64 (SetBytes (ByteSlice.mk (word 18).bytes 32).contents) ]
        reads := ScanState.init.reads ++
          [ ⟨rt0.addrString (topicAddress (word 9)), tokenName⟩,
            ⟨rt0.addrString (topicAddress (word 9)), tokenSymbol⟩,
            ⟨rt0.addrString (topicAddress (word 9)), tokenDecimals⟩ ] } :=
  ⟨by decide,
    (C17_creation_row rt0 factory0 cliToken18 (okReceipt []) 0 (creationLog rt0)
      ScanState.init creationTopic (word 9) (word 8) [] ⟨abcdeBytes, 96⟩ ⟨abcdeBytes, 96⟩
      ⟨(word 18).bytes, 32⟩
      (word 32).bytes (word 5).bytes [65, 66, 67, 68, 69] (List.replicate 27 0)
      (word 32).bytes (word 5).bytes [65, 66, 67, 68, 69] (List.replicate 27 0)
      rfl rfl (by decide) (by decide) (by decide) (by decide)
      (by decide) (by decide) (by decide) (by decide) (by decide)
      (by decide) (by decide) (by decide) (by decide) (by decide)
      (by decide)).1⟩

/-! ## Seven arguments per placeholder group -/

theorem placeholderCount_append (a b : String) :
    placeholderCount (a ++ b) = placeholderCount a + placeholderCount b := by
  simp [placeholderCount, String.data_append]

theorem placeholderCount_go (n : Nat) (acc : String) :
    placeholderCount (String.intercalate.go acc "," (List.replicate n "(?,?,?,?,?,?,?)")) =
      placeholderCount acc + 7 * n := by
  induction n generalizing acc with
  | zero => simp [String.intercalate.go]
  | succ n ih =>
    have h1 : placeholderCount "," = 0 := by decide
    have h2 : placeholderCount "(?,?,?,?,?,?,?)" = 7 := by decide
    simp only [List.replicate_succ, String.intercalate.go]
    rw [ih, placeholderCount_append, placeholderCount_append, h1, h2]
    omega

theorem placeholderCount_intercalate (n : Nat) :
    placeholderCount (",".intercalate (List.replicate n "(?,?,?,?,?,?,?)")) = 7 * n := by
  cases n with
  | zero => decide
  | succ n =>
    have h2 : placeholderCount "(?,?,?,?,?,?,?)" = 7 := by decide
    simp only [List.replicate_succ, String.intercalate]
    rw [placeholderCount_go, h2]
    omega

set_option maxRecDepth 100000 in
theorem placeholderCount_exchangeInsertText (n : Nat) :
    placeholderCount (exchangeInsertText n) = 7 * n := by
  unfold exchangeInsertText
  rw [placeholderCount_append, placeholderCount_intercalate]
  have h : placeholderCount
      "INSERT INTO `mimo_exchange_creations` (`exchange`,`token`,`block_height`,`action_hash`,`token_name`,`token_symbol`,`token_decimals`) VALUES " = 0 := by
    decide
  omega

set_option maxRecDepth 100000 in
theorem placeholderCount_providerActionsInsertText (n : Nat) :
    placeholderCount (providerActionsInsertText n) = 7 * n := by
  unfold providerActionsInsertText
  rw [placeholderCount_append, placeholderCount_intercalate]
  have h : placeholderCount
      "INSERT INTO `mimo_exchange_provider_actions` (`action_hash`,`idx`,`exchange`,`block_height`,`provider`,`iotx_amount`,`token_amount`) VALUES " = 0 := by
    decide
  omega

theorem exchangeStmt_count (s : ScanState) (h : RowsInv s) :
    placeholderCount (exchangeStmt s).query = (exchangeStmt s).args.length := by
  obtain ⟨h1, h2, _, _⟩ := h
  have hv : s.valStrs = List.replicate s.valStrs.length "(?,?,?,?,?,?,?)" :=
    List.eq_replicate_length.2 h1
  have hq : (exchangeStmt s).query = exchangeInsertText s.valStrs.length := by
    unfold exchangeStmt exchangeInsertText
    rw [Sprintf_insertExchangeQuery, ← hv]
  rw [hq, placeholderCount_exchangeInsertText]
  exact h2.symm

theorem providerActionsStmt_count (s : ScanState) (h : RowsInv s) :
    placeholderCount (providerActionsStmt s).query = (providerActionsStmt s).args.length := by
  obtain ⟨_, _, h3, h4⟩ := h
  have hv : s.actionValStrs = List.replicate s.actionValStrs.length "(?,?,?,?,?,?,?)" :=
    List.eq_replicate_length.2 h3
  have hq : (providerActionsStmt s).query =
      providerActionsInsertText s.actionValStrs.length := by
    unfold providerActionsStmt providerActionsInsertText
    rw [Sprintf_insertProviderActionsQuery, ← hv]
  rw [hq, placeholderCount_providerActionsInsertText]
  exact h4.symm

theorem flushActions_execs (tx : Tx) (s : ScanState) (done : List Stmt) (st : Stmt)
    (h : st ∈ (flushActions tx s done).execs) : st ∈ done ∨ st = providerActionsStmt s := by
  unfold flushActions at h
  split at h
  · split at h <;> simpa using h
  · exact Or.inl h

theorem flush_execs (tx : Tx) (s : ScanState) (st : Stmt) (h : st ∈ (flush tx s).execs) :
    st = exchangeStmt s ∨ st = providerActionsStmt s := by
  unfold flush at h
  split at h
  · split at h
    · exact Or.inl (by simpa using h)
    · rcases flushActions_execs tx s _ st h with h1 | h1
      · exact Or.inl (by simpa using h1)
      · exact Or.inr h1
  · rcases flushActions_execs tx s _ st h with h1 | h1
    · simp at h1
    · exact Or.inr h1

/-- C19: the four pending lists keep seven arguments per placeholder group,
every group being `(?,?,?,?,?,?,?)`: at the start of the scan, after every
log, at the end of every scan that succeeds; and every statement
`HandleBlockData` executes has as many arguments as `?` placeholders. -/
theorem C19_seven_arguments_per_group (rt : Runtime) (factoryAddr : Address) (client : Client) :
    RowsInv ScanState.init ∧
    (∀ receipt i l s s1, RowsInv s →
      handleLog rt factoryAddr client receipt i l s = .next s1 → RowsInv s1) ∧
    (∀ receipt i ls s s1, RowsInv s →
      scanLogs rt factoryAddr client receipt i ls s = .next s1 → RowsInv s1) ∧
    (∀ rs s, scanReceipts rt factoryAddr client rs ScanState.init = .next s →
      s.valArgs.length = 7 * s.valStrs.length ∧
      s.actionValArgs.length = 7 * s.actionValStrs.length) ∧
    (∀ p ctx tx data, ∀ st ∈ (HandleBlockData rt p ctx tx data).execs,
      placeholderCount st.query = st.args.length) := by
  refine ⟨RowsInv_init, ?_, ?_, ?_, ?_⟩
  · intro receipt i l s s1 hs h
    exact handleLog_inv rt factoryAddr client receipt i l s s1 h hs
  · intro receipt i ls s s1 hs h
    exact scanLogs_inv rt factoryAddr client receipt ls i s s1 h hs
  · intro rs s h
    obtain ⟨_, h2, _, h4⟩ := scanReceipts_inv rt factoryAddr client rs _ s h RowsInv_init
    exact ⟨h2, h4⟩
  · intro p ctx tx data st hst
    unfold HandleBlockData at hst
    cases hp : p.factoryAddr with
    | none => rw [hp] at hst; simp at hst
    | some f =>
      rw [hp] at hst
      simp only at hst
      cases hc : ctx.serviceClient with
      | none => rw [hc] at hst; simp at hst
      | some c =>
        rw [hc] at hst
        simp only at hst
        cases hscan : scanReceipts rt f c data.Block.Receipts ScanState.init with
        | fail e r => rw [hscan] at hst; simp at hst
        | crash r => rw [hscan] at hst; simp at hst
        | next s =>
          rw [hscan] at hst
          have hinv := scanReceipts_inv rt f c _ _ s hscan RowsInv_init
          rcases flush_execs tx s st hst with h | h
          · rw [h]; exact exchangeStmt_count s hinv
          · rw [h]; exact providerActionsStmt_count s hinv

set_option maxRecDepth 100000 in
/-- C19 at the end of the scan of a block with one Creation row and one
Addition row: seven arguments for the one group of each table. -/
theorem C19_seven_arguments_per_group_witness :
    scanReceipts rt0 factory0 cliToken mixedBlock.Block.Receipts ScanState.init =
      .next (finalState
        (scanReceipts rt0 factory0 cliToken mixedBlock.Block.Receipts ScanState.init)) ∧
    (finalState (scanReceipts rt0 factory0 cliToken mixedBlock.Block.Receipts
      ScanState.init)).valStrs.length = 1 ∧
    (finalState (scanReceipts rt0 factory0 cliToken mixedBlock.Block.Receipts
      ScanState.init)).valArgs.length =
      7 * (finalState (scanReceipts rt0 factory0 cliToken mixedBlock.Block.Receipts
        ScanState.init)).valStrs.length ∧
    (finalState (scanReceipts rt0 factory0 cliToken mixedBlock.Block.Receipts
      ScanState.init)).actionValArgs.length =
      7 * (finalState (scanReceipts rt0 factory0 cliToken mixedBlock.Block.Receipts
        ScanState.init)).actionValStrs.length :=
  ⟨by decide, by decide,
    (C19_seven_arguments_per_group rt0 factory0 cliToken).2.2.2.1 mixedBlock.Block.Receipts
      (finalState (scanReceipts rt0 factory0 cliToken mixedBlock.Block.Receipts
        ScanState.init)) (by decide)⟩

/-! ## The scan after an earlier scan -/

theorem ScanState.append_init (s : ScanState) : s.append ScanState.init = s := by
  simp [ScanState.append, ScanState.init]

theorem ReadContract_after (rt : Runtime) (c : Client) (h hist : List ReadRequest)
    (addr : String) (cd : List Byte) :
    ReadContract rt (c.after h) hist addr cd = ReadContract rt c (h ++ hist) addr cd := rfl

theorem handleAddition_frame (rt : Runtime) (receipt : Receipt) (i : Nat) (l : Log)
    (s d : ScanState) :
    handleAddition rt receipt i l (s.append d) =
      (handleAddition rt receipt i l d).prepend s := by
  unfold handleAddition
  repeat' split
  all_goals simp [ScanState.append, Step.prepend]

theorem handleRemoval_frame (rt : Runtime) (receipt : Receipt) (i : Nat) (l : Log)
    (s d : ScanState) :
    handleRemoval rt receipt i l (s.append d) =
      (handleRemoval rt receipt i l d).prepend s := by
  unfold handleRemoval
  repeat' split
  all_goals simp [ScanState.append, Step.prepend]

theorem handleCreation_frame (rt : Runtime) (c : Client) (l : Log) (s d : ScanState) :
    handleCreation rt c l (s.append d) =
      (handleCreation rt (c.after s.reads) l d).prepend s := by
  simp only [handleCreation, ReadContract_after, ScanState.append, List.append_assoc]
  repeat' split
  all_goals simp_all [ScanState.append, Step.prepend]

theorem handleLog_frame (rt : Runtime) (factoryAddr : Address) (c : Client)
    (receipt : Receipt) (i : Nat) (l : Log) (s d : ScanState) :
    handleLog rt factoryAddr c receipt i l (s.append d) =
      (handleLog rt factoryAddr (c.after s.reads) receipt i l d).prepend s := by
  unfold handleLog
  split
  · rfl
  · split
    · rfl
    · split
      · exact handleAddition_frame rt receipt i l s d
      · split
        · exact handleRemoval_frame rt receipt i l s d
        · split
          · exact handleCreation_frame rt c l s d
          · rfl

theorem scanLogs_frame (rt : Runtime) (factoryAddr : Address) (c : Client)
    (receipt : Receipt) (ls : List Log) (i : Nat) (s d : ScanState) :
    scanLogs rt factoryAddr c receipt i ls (s.append d) =
      (scanLogs rt factoryAddr (c.after s.reads) receipt i ls d).prepend s := by
  induction ls generalizing i d with
  | nil => rfl
  | cons l ls ih =>
    simp only [scanLogs, handleLog_frame]
    cases handleLog rt factoryAddr (c.after s.reads) receipt i l d with
    | next d1 => exact ih (i + 1) d1
    | fail e r => rfl
    | crash r => rfl

theorem scanReceipts_frame (rt : Runtime) (factoryAddr : Address) (c : Client)
    (rs : List Receipt) (s d : ScanState) :
    scanReceipts rt factoryAddr c rs (s.append d) =
      (scanReceipts rt factoryAddr (c.after s.reads) rs d).prepend s := by
  induction rs generalizing d with
  | nil => rfl
  | cons r rs ih =>
    simp only [scanReceipts, scanLogs_frame]
    split
    · exact ih d
    · cases scanLogs rt factoryAddr (c.after s.reads) r 0 r.logs d with
      | next d1 => exact ih d1
      | fail e r => rfl
      | crash r => rfl

theorem Client.after_eq_self (c : Client) (hist : List ReadRequest)
    (h : ∀ past req, c.ReadContract past req = c.ReadContract [] req) : c.after hist = c := by
  cases c with
  | mk f =>
    simp only [Client.after, Client.mk.injEq]
    funext past req
    exact (h (hist ++ past) req).trans (h past req).symm

/-- C15: a scan of the receipts `r1 ++ r2` that succeeds is the scan of `r1`
followed by the scan of `r2` with the client as the scan of `r1` left it: the
placeholder groups, the rows of both tables and the reads are those of `r1`
followed by those of `r2`. For a client whose answers do not depend on the
requests it received before, the second scan is the one of `r2` alone. The
same holds for the logs `l1 ++ l2` of one receipt. -/
theorem C15_rows_in_receipt_order (rt : Runtime) (factoryAddr : Address) (c : Client)
    (r1 r2 : List Receipt) (s : ScanState)
    (h : scanReceipts rt factoryAddr c (r1 ++ r2) ScanState.init = .next s) :
    (∃ s1 s2,
      scanReceipts rt factoryAddr c r1 ScanState.init = .next s1 ∧
      scanReceipts rt factoryAddr (c.after s1.reads) r2 ScanState.init = .next s2 ∧
      s.valStrs = s1.valStrs ++ s2.valStrs ∧
      s.valArgs = s1.valArgs ++ s2.valArgs ∧
      s.actionValStrs = s1.actionValStrs ++ s2.actionValStrs ∧
      s.actionValArgs = s1.actionValArgs ++ s2.actionValArgs ∧
      s.reads = s1.reads ++ s2.reads ∧
      ((∀ past req, c.ReadContract past req = c.ReadContract [] req) →
        scanReceipts rt factoryAddr c r2 ScanState.init = .next s2)) ∧
    (∀ receipt l1 l2 t,
      scanLogs rt factoryAddr c receipt 0 (l1 ++ l2) ScanState.init = .next t →
      ∃ t1 t2,
        scanLogs rt factoryAddr c receipt 0 l1 ScanState.init = .next t1 ∧
        scanLogs rt factoryAddr (c.after t1.reads) receipt l1.length l2 ScanState.init =
          .next t2 ∧
        t = t1.append t2) := by
  constructor
  · rw [scanReceipts_append] at h
    cases h1 : scanReceipts rt factoryAddr c r1 ScanState.init with
    | fail e r => rw [h1] at h; cases h
    | crash r => rw [h1] at h; cases h
    | next s1 =>
      rw [h1] at h
      simp only at h
      have hf := scanReceipts_frame rt factoryAddr c r2 s1 ScanState.init
      rw [ScanState.append_init, h] at hf
      cases h2 : scanReceipts rt factoryAddr (c.after s1.reads) r2 ScanState.init with
      | fail e r => rw [h2] at hf; cases hf
      | crash r => rw [h2] at hf; cases hf
      | next s2 =>
        rw [h2] at hf
        simp only [Step.prepend, Step.next.injEq] at hf
        subst hf
        refine ⟨s1, s2, by first | exact h1 | rfl, h2, rfl, rfl, rfl, rfl, rfl, ?_⟩
        intro hc
        rw [← Client.after_eq_self c s1.reads hc]
        exact h2
  · intro receipt l1 l2 t ht
    rw [scanLogs_append] at ht
    cases h1 : scanLogs rt factoryAddr c receipt 0 l1 ScanState.init with
    | fail e r => rw [h1] at ht; cases ht
    | crash r => rw [h1] at ht; cases ht
    | next t1 =>
      rw [h1] at ht
      simp only [Nat.zero_add] at ht
      have hf := scanLogs_frame rt factoryAddr c receipt l2 l1.length t1 ScanState.init
      rw [ScanState.append_init, ht] at hf
      cases h2 : scanLogs rt factoryAddr (c.after t1.reads) receipt l1.length l2
          ScanState.init with
      | fail e r => rw [h2] at hf; cases hf
      | crash r => rw [h2] at hf; cases hf
      | next t2 =>
        rw [h2] at hf
        simp only [Step.prepend, Step.next.injEq] at hf
        exact ⟨t1, t2, by first | exact h1 | rfl, h2, hf⟩

set_option maxRecDepth 100000 in
/-- C15 on a block of two receipts, the first with a Creation-kind log and
the second with an Addition-kind log. -/
theorem C15_rows_in_receipt_order_witness :
    scanReceipts rt0 factory0 cliToken twoReceipts ScanState.init =
      .next (finalState (scanReceipts rt0 factory0 cliToken twoReceipts ScanState.init)) ∧
    ∃ s1 s2,
      scanReceipts rt0 factory0 cliToken [okReceipt [creationLog rt0]] ScanState.init =
        .next s1 ∧
      scanReceipts rt0 factory0 (cliToken.after s1.reads)
        [okReceipt [factoryLog [additionTopic, word 9, word 5, word 6]]] ScanState.init =
        .next s2 ∧
      (finalState (scanReceipts rt0 factory0 cliToken twoReceipts ScanState.init)).valStrs =
        s1.valStrs ++ s2.valStrs ∧
      (finalState (scanReceipts rt0 factory0 cliToken twoReceipts ScanState.init)).valArgs =
        s1.valArgs ++ s2.valArgs ∧
      (finalState (scanReceipts rt0 factory0 cliToken twoReceipts
        ScanState.init)).actionValStrs = s1.actionValStrs ++ s2.actionValStrs ∧
      (finalState (scanReceipts rt0 factory0 cliToken twoReceipts
        ScanState.init)).actionValArgs = s1.actionValArgs ++ s2.actionValArgs ∧
      (finalState (scanReceipts rt0 factory0 cliToken twoReceipts ScanState.init)).reads =
        s1.reads ++ s2.reads ∧
      ((∀ past req, cliToken.ReadContract past req = cliToken.ReadContract [] req) →
        scanReceipts rt0 factory0 cliToken
          [okReceipt [factoryLog [additionTopic, word 9, word 5, word 6]]] ScanState.init =
          .next s2) :=
  ⟨by decide,
    (C15_rows_in_receipt_order rt0 factory0 cliToken [okReceipt [creationLog rt0]]
      [okReceipt [factoryLog [additionTopic, word 9, word 5, word 6]]]
      (finalState (scanReceipts rt0 factory0 cliToken twoReceipts ScanState.init))
      (by decide)).1⟩

/-! ## The composite keys of the action rows -/

theorem rowKeys_append (k : Nat) (a b : List Value) (h : a.length = 7 * k) :
    rowKeys (a ++ b) = rowKeys a ++ rowKeys b := by
  induction k generalizing a with
  | zero =>
    have : a = [] := List.length_eq_zero.1 (by simpa using h)
    subst this
    simp [rowKeys]
  | succ k ih =>
    rcases a with _ | ⟨x1, _ | ⟨x2, _ | ⟨x3, _ | ⟨x4, _ | ⟨x5, _ | ⟨x6, _ | ⟨x7, a⟩⟩⟩⟩⟩⟩⟩
    all_goals first
      | (simp only [List.length_cons, List.length_nil] at h; omega)
      | (have ha : a.length = 7 * k := by
           simp only [List.length_cons] at h; omega
         simp only [List.cons_append, rowKeys]
         exact congrArg (List.cons (x1, x2)) (ih a ha))

theorem rowKeys_length (k : Nat) (a : List Value) (h : a.length = 7 * k) :
    (rowKeys a).length = k := by
  induction k generalizing a with
  | zero =>
    have : a = [] := List.length_eq_zero.1 (by simpa using h)
    subst this
    simp [rowKeys]
  | succ k ih =>
    rcases a with _ | ⟨x1, _ | ⟨x2, _ | ⟨x3, _ | ⟨x4, _ | ⟨x5, _ | ⟨x6, _ | ⟨x7, a⟩⟩⟩⟩⟩⟩⟩
    all_goals first
      | (simp only [List.length_cons, List.length_nil] at h; omega)
      | (have ha : a.length = 7 * k := by
           simp only [List.length_cons] at h; omega
         simp only [rowKeys, List.length_cons, ih a ha])

theorem handleAddition_keys (rt : Runtime) (receipt : Receipt) (i : Nat) (l : Log)
    (s s1 : ScanState) (h : handleAddition rt receipt i l s = .next s1) (hs : RowsInv s) :
    rowKeys s1.actionValArgs =
      rowKeys s.actionValArgs ++ [(.hash receipt.ActionHash, .int i)] := by
  unfold handleAddition at h
  repeat' split at h
  all_goals first
    | (cases h
       simp only []
       rw [rowKeys_append s.actionValStrs.length _ _ hs.2.2.2]
       simp [rowKeys])
    | cases h

theorem handleRemoval_keys (rt : Runtime) (receipt : Receipt) (i : Nat) (l : Log)
    (s s1 : ScanState) (h : handleRemoval rt receipt i l s = .next s1) (hs : RowsInv s) :
    rowKeys s1.actionValArgs =
      rowKeys s.actionValArgs ++ [(.hash receipt.ActionHash, .int i)] := by
  unfold handleRemoval at h
  repeat' split at h
  all_goals first
    | (cases h
       simp only []
       rw [rowKeys_append s.actionValStrs.length _ _ hs.2.2.2]
       simp [rowKeys])
    | cases h

theorem handleCreation_keys (rt : Runtime) (client : Client) (l : Log)
    (s s1 : ScanState) (h : handleCreation rt client l s = .next s1) :
    s1.actionValArgs = s.actionValArgs := by
  simp only [handleCreation] at h
  repeat' split at h
  all_goals first
    | (cases h; rfl)
    | cases h

theorem handleLog_keys (rt : Runtime) (factoryAddr : Address) (client : Client)
    (receipt : Receipt) (i : Nat) (l : Log) (s s1 : ScanState)
    (h : handleLog rt factoryAddr client receipt i l s = .next s1) (hs : RowsInv s) :
    rowKeys s1.actionValArgs = rowKeys s.actionValArgs ∨
    rowKeys s1.actionValArgs =
      rowKeys s.actionValArgs ++ [(.hash receipt.ActionHash, .int i)] := by
  unfold handleLog at h
  repeat' split at h
  · cases h; exact Or.inl rfl
  · cases h; exact Or.inl rfl
  · exact Or.inr (handleAddition_keys rt receipt i l s s1 h hs)
  · exact Or.inr (handleRemoval_keys rt receipt i l s s1 h hs)
  · exact Or.inl (by rw [handleCreation_keys rt client l s s1 h])
  · cases h; exact Or.inl rfl

theorem scanLogs_keys (rt : Runtime) (factoryAddr : Address) (client : Client)
    (receipt : Receipt) (ls : List Log) (i : Nat) (s s1 : ScanState)
    (h : scanLogs rt factoryAddr client receipt i ls s = .next s1) (hs : RowsInv s) :
    ∃ js : List Nat,
      rowKeys s1.actionValArgs = rowKeys s.actionValArgs ++
        js.map (fun j : Nat => (Value.hash receipt.ActionHash, Value.int j)) ∧
      js.Pairwise (· < ·) ∧ ∀ j ∈ js, i ≤ j ∧ j < i + ls.length := by
  induction ls generalizing i s with
  | nil =>
    cases h
    exact ⟨[], by simp, List.Pairwise.nil, by simp⟩
  | cons l ls ih =>
    simp only [scanLogs] at h
    cases hl : handleLog rt factoryAddr client receipt i l s with
    | fail e r => rw [hl] at h; cases h
    | crash r => rw [hl] at h; cases h
    | next s2 =>
      rw [hl] at h
      have hs2 := handleLog_inv rt factoryAddr client receipt i l s s2 hl hs
      obtain ⟨js, hk, hp, hb⟩ := ih (i + 1) s2 h hs2
      rcases handleLog_keys rt factoryAddr client receipt i l s s2 hl hs with h0 | h0
      · refine ⟨js, by rw [hk, h0], hp, ?_⟩
        intro j hj
        have := hb j hj
        simp only [List.length_cons]
        omega
      · refine ⟨i :: js, by rw [hk, h0]; simp, ?_, ?_⟩
        · refine List.Pairwise.cons ?_ hp
          intro j hj
          have := hb j hj
          omega
        · intro j hj
          simp only [List.length_cons]
          rcases List.mem_cons.1 hj with rfl | hj
          · omega
          · have := hb j hj
            omega

theorem scanReceipts_keys (rt : Runtime) (factoryAddr : Address) (client : Client)
    (rs : List Receipt) (s s1 : ScanState)
    (h : scanReceipts rt factoryAddr client rs s = .next s1) (hs : RowsInv s) :
    ∃ ks : List (Value × Value),
      rowKeys s1.actionValArgs = rowKeys s.actionValArgs ++ ks ∧
      (∀ k ∈ ks, ∃ r ∈ rs, r.Status = 1 ∧ ∃ j : Nat, j < r.logs.length ∧
        k = (.hash r.ActionHash, .int j)) ∧
      (((rs.filter fun r => r.Status = 1).map Receipt.ActionHash).Nodup → ks.Nodup) := by
  induction rs generalizing s with
  | nil =>
    cases h
    exact ⟨[], by simp, by simp, by simp⟩
  | cons r rs ih =>
    simp only [scanReceipts] at h
    by_cases hst : r.Status = 1
    · simp only [hst, ne_eq, not_true_eq_false, if_false] at h
      cases hl : scanLogs rt factoryAddr client r 0 r.logs s with
      | fail e q => rw [hl] at h; cases h
      | crash q => rw [hl] at h; cases h
      | next s2 =>
        rw [hl] at h
        have hs2 := scanLogs_inv rt factoryAddr client r r.logs 0 s s2 hl hs
        obtain ⟨js, hk, hp, hb⟩ := scanLogs_keys rt factoryAddr client r r.logs 0 s s2 hl hs
        obtain ⟨ks, hk2, hm, hn⟩ := ih s2 h hs2
        refine ⟨js.map (fun j : Nat => (Value.hash r.ActionHash, Value.int j)) ++ ks,
          by rw [hk2, hk, List.append_assoc], ?_, ?_⟩
        · intro k hkm
          rcases List.mem_append.1 hkm with hkm | hkm
          · obtain ⟨j, hj, rfl⟩ := List.mem_map.1 hkm
            exact ⟨r, List.mem_cons_self r rs, hst, j, by have := hb j hj; omega, rfl⟩
          · obtain ⟨r', hr', h1, j, hj, rfl⟩ := hm k hkm
            exact ⟨r', List.mem_cons_of_mem r hr', h1, j, hj, rfl⟩
        · intro hd
          simp only [List.filter_cons, hst, decide_True, if_true, List.map_cons,
            List.nodup_cons] at hd
          have hjs : js.Nodup := hp.imp (fun hab => Nat.ne_of_lt hab)
          refine List.nodup_append.2 ⟨?_, hn hd.2, ?_⟩
          · refine hjs.map ?_
            intro a b hab
            simp only [Prod.mk.injEq, Value.int.injEq, Nat.cast_inj, true_and] at hab
            exact hab
          · intro k hk1 hk2m
            obtain ⟨j, _, rfl⟩ := List.mem_map.1 hk1
            obtain ⟨r', hr', h1, j', _, he⟩ := hm _ hk2m
            simp only [Prod.mk.injEq, Value.hash.injEq] at he
            apply hd.1
            rw [he.1]
            exact List.mem_map.2 ⟨r', List.mem_filter.2 ⟨hr', by simp [h1]⟩, rfl⟩
    · simp only [hst, ne_eq, not_false_eq_true, if_true] at h
      obtain ⟨ks, hk2, hm, hn⟩ := ih s h hs
      refine ⟨ks, hk2, ?_, ?_⟩
      · intro k hkm
        obtain ⟨r', hr', h1, j, hj, rfl⟩ := hm k hkm
        exact ⟨r', List.mem_cons_of_mem r hr', h1, j, hj, rfl⟩
      · intro hd
        simp only [List.filter_cons, hst, decide_False] at hd
        exact hn (by simpa using hd)

/-- C14: when the successful receipts of a block have pairwise distinct
action hashes, the composite keys (action hash, index) of the Addition and
Removal rows a successful scan queues are pairwise distinct; there is one key
per queued group, and each key is the action hash of a successful receipt with
a position in its logs. Two successful receipts with one Addition-kind log
each queue the keys (h1, 0) and (h2, 0). -/
theorem C14_action_keys_distinct (rt : Runtime) (factoryAddr : Address) (client : Client)
    (rs : List Receipt) (s : ScanState)
    (hscan : scanReceipts rt factoryAddr client rs ScanState.init = .next s)
    (hdistinct : ((rs.filter fun r => r.Status = 1).map Receipt.ActionHash).Nodup) :
    (rowKeys s.actionValArgs).Nodup ∧
    (rowKeys s.actionValArgs).length = s.actionValStrs.length ∧
    (∀ k ∈ rowKeys s.actionValArgs, ∃ r ∈ rs, r.Status = 1 ∧ ∃ j : Nat, j < r.logs.length ∧
      k = (.hash r.ActionHash, .int j)) ∧
    (∀ (ra rb : Receipt) (la lb : Log) (a0 a1 a2 a3 b0 b1 b2 b3 : Hash256)
      (resta restb : List Hash256),
      ra.Status = 1 → rb.Status = 1 → ra.logs = [la] → rb.logs = [lb] →
      la.Address = rt.addrString factoryAddr → lb.Address = rt.addrString factoryAddr →
      la.Topics = a0 :: a1 :: a2 :: a3 :: resta → lb.Topics = b0 :: b1 :: b2 :: b3 :: restb →
      hexEncodeToString a0.bytes = additionSig → hexEncodeToString b0.bytes = additionSig →
      ∃ t, scanReceipts rt factoryAddr client [ra, rb] ScanState.init = .next t ∧
        rowKeys t.actionValArgs =
          [(.hash ra.ActionHash, .int 0), (.hash rb.ActionHash, .int 0)]) := by
  obtain ⟨ks, hk, hm, hn⟩ :=
    scanReceipts_keys rt factoryAddr client rs _ s hscan RowsInv_init
  have hk1 : rowKeys s.actionValArgs = ks := by
    rw [hk]
    simp [ScanState.init, rowKeys]
  have hinv := scanReceipts_inv rt factoryAddr client rs _ s hscan RowsInv_init
  refine ⟨by rw [hk1]; exact hn hdistinct,
    rowKeys_length _ _ hinv.2.2.2, by rw [hk1]; exact hm, ?_⟩
  intro ra rb la lb a0 a1 a2 a3 b0 b1 b2 b3 resta restb hra hrb hla hlb haa hab hta htb hsa hsb
  refine ⟨_, by
    simp only [scanReceipts, hra, hrb, hla, hlb, scanLogs, handleLog, haa, hab, hta, htb, hsa,
      hsb, handleAddition, ConvertTopicToAddress_eq, ne_eq, not_true_eq_false, if_false,
      if_true, List.getElem?_cons_succ, List.getElem?_cons_zero]
    rfl, ?_⟩
  simp [ScanState.init, rowKeys]

/-- C14 on two successful receipts with the action hashes 77 and 78, each
with one Addition-kind log at index 0: the keys are (77, 0) and (78, 0). -/
theorem C14_action_keys_distinct_witness :
    ((twoAdditions.filter fun r => r.Status = 1).map Receipt.ActionHash).Nodup ∧
    rowKeys (finalState
      (scanReceipts rt0 factory0 cliDown twoAdditions ScanState.init)).actionValArgs =
      [(.hash (word 77), .int 0), (.hash (word 78), .int 0)] ∧
    (rowKeys (finalState
      (scanReceipts rt0 factory0 cliDown twoAdditions ScanState.init)).actionValArgs).Nodup :=
  ⟨by decide, by decide,
    (C14_action_keys_distinct rt0 factory0 cliDown twoAdditions
      (finalState (scanReceipts rt0 factory0 cliDown twoAdditions ScanState.init))
      (by decide) (by decide)).1⟩

end Mimo
